import Mathlib

/-!
# Verification of the CRAWL-E fetch engine (`crawle.py`)

Shallow embedding of the core of the CRAWL-E crawling framework:

* `HTTPConnectionQueue` — the per-endpoint pool of idle connections
  (`get` / `put` / `destroy`);
* `CQueueLRU` — the LRU cache of endpoint pools
  (`__getitem__` / `__setitem__`, modelled as `getitem` / `setitem`);
* `HTTPConnectionControl.request` — the request pipeline (stop check,
  pre-process hook, URL validation, header defaults, dispatch, redirect
  recursion, gzip decoding), modelled as `request`;
* `ControlThread.run` — the worker loop, modelled as `workerRun`.

Python dictionaries are modelled as association lists with dict-like
insert/lookup; library calls (`urlparse`, `urljoin`, `socket`, `httplib`,
`gzip`, the `zcat` subprocess) are parameters of the environment `Env`,
since they are external to the repository.  Mutation is modelled by
explicit state passing; Python exceptions become explicit error values
that carry the mutated state with them (matching the fact that in the
source, mutations to `req_res` survive a raised exception).
-/

namespace Crawle

/-! ## Python dict model (string-keyed association lists) -/

/-- A Python `dict` with string keys and values, as an association list. -/
abbrev Dict := List (String × String)

/-- `k in d` for a Python dict. -/
def dictContains (d : Dict) (k : String) : Bool :=
  d.any (fun p => p.1 == k)

/-- `d[k]` lookup for a Python dict (`none` when absent). -/
def dictLookup (d : Dict) (k : String) : Option String :=
  (d.find? (fun p => p.1 == k)).map Prod.snd

/-- `d[k] = v` for a Python dict: replace in place when the key exists,
otherwise append. -/
def dictInsert (d : Dict) (k v : String) : Dict :=
  if dictContains d k then d.map (fun p => if p.1 == k then (k, v) else p)
  else d ++ [(k, v)]

/-! ## Error taxonomy

The `Crawle*` exception classes of the source, plus `transport` standing
for any exception raised by the underlying `httplib`/`socket` machinery
during dispatch. -/

inductive CrawleError
  | stopped
  | aborted
  | unsupportedScheme
  | redirectsExceeded
  | transport
deriving Repr, DecidableEq

/-! ## RequestResponse -/

/-- The `RequestResponse` container of the source.  Fields keep the
source names (with `snake_case` preserved where Lean allows).
`redirects = none` models Python `None` ("do not follow redirects");
`request_headers = none` models passing `headers=None`. -/
structure RequestResponse where
  error : Option CrawleError := none
  redirects : Option Int := some 10
  extra : List String := []
  request_headers : Option Dict := none
  request_url : String
  request_method : String := "GET"
  request_params : Option Dict := none
  response_status : Option Nat := none
  response_url : Option String
  response_headers : Option Dict := none
  response_body : Option String := none
  response_time : Option Nat := none
deriving Repr, DecidableEq

/-! ## Connections and the per-endpoint pool (`HTTPConnectionQueue`) -/

/-- An `httplib.HTTP(S)Connection` annotated with the dynamically added
`request_count` field.  The transport itself is external; only the
annotation is observable to the pool logic. -/
structure Conn where
  requestCount : Nat
deriving Repr, DecidableEq

/-- `HTTPConnectionQueue.connection_object`: a freshly synthesized
connection with `request_count = 0`. -/
def connection_object : Conn := ⟨0⟩

/-- The per-endpoint pool: a FIFO `Queue.Queue` of idle connections plus
the `connections` counter and the `max_conn` bound of the source.
`closedConns` is a ghost log of every connection the pool has closed
(via `close()` in `get`, `put` or `destroy`), in order. -/
structure HTTPConnectionQueue where
  queue : List Conn
  connections : Int
  maxConn : Option Int
  closedConns : List Conn
deriving Repr, DecidableEq

/-- `HTTPConnectionQueue.__init__`: empty queue, zero counter. -/
def initPool (maxConn : Option Int) : HTTPConnectionQueue :=
  { queue := [], connections := 0, maxConn := maxConn, closedConns := [] }

/-- `HTTPConnectionQueue.get` with the class attribute `REQUEST_LIMIT`
passed explicitly.  Pops the FIFO head (decrementing `connections`); a
popped connection whose `request_count` has reached a truthy
`REQUEST_LIMIT` is closed and replaced by a fresh one.  An empty queue
synthesizes a fresh connection.  Python truthiness: `REQUEST_LIMIT`
values `None` and `0` both disable the check. -/
def HTTPConnectionQueue.get (limit : Option Nat) (q : HTTPConnectionQueue) :
    Conn × HTTPConnectionQueue :=
  match q.queue with
  | [] => (connection_object, q)
  | c :: rest =>
    let q1 : HTTPConnectionQueue :=
      { q with queue := rest, connections := q.connections - 1 }
    match limit with
    | some L =>
      if L ≠ 0 ∧ L ≤ c.requestCount then
        (connection_object, { q1 with closedConns := q1.closedConns ++ [c] })
      else (c, q1)
    | none => (c, q1)

/-- `HTTPConnectionQueue.put`: increment `request_count`; if `max_conn`
is not `None` and `connections + 1 > max_conn`, close the connection,
otherwise push it back (incrementing `connections`). -/
def HTTPConnectionQueue.put (q : HTTPConnectionQueue) (c : Conn) :
    HTTPConnectionQueue :=
  let c1 : Conn := { c with requestCount := c.requestCount + 1 }
  match q.maxConn with
  | some m =>
    if q.connections + 1 > m then { q with closedConns := q.closedConns ++ [c1] }
    else { q with queue := q.queue ++ [c1], connections := q.connections + 1 }
  | none => { q with queue := q.queue ++ [c1], connections := q.connections + 1 }

/-- `HTTPConnectionQueue.destroy`: drain the queue, closing every idle
connection.  (The source does not reset the `connections` counter.) -/
def HTTPConnectionQueue.destroy (q : HTTPConnectionQueue) : HTTPConnectionQueue :=
  { q with queue := [], closedConns := q.closedConns ++ q.queue }

/-- A single acquire/release operation against one endpoint pool. -/
inductive PoolOp
  | acquire
  | release (c : Conn)

/-- Run a sequence of pool operations (quiescent-point semantics: the
pool's own queue is thread safe, so any interleaving is a sequence). -/
def runPoolOps (limit : Option Nat) :
    List PoolOp → HTTPConnectionQueue → HTTPConnectionQueue
  | [], q => q
  | .acquire :: ops, q => runPoolOps limit ops (HTTPConnectionQueue.get limit q).2
  | .release c :: ops, q => runPoolOps limit ops (q.put c)

/-! ## The LRU cache of endpoint pools (`CQueueLRU`)

The source keeps a hash table `table` and a doubly-linked list of
`QueueNode`s from `newest` to `oldest` (`node.next` points toward the
older end, `node.prev` toward the newer end).  Verified by hand against
the pointer surgery in `__setitem__`, the pair (table, list) is exactly
an ordered association list in newest-first order, which is how it is
modelled here: the list `entries` *is* the next-chain from `newest`,
and the table is its set of keys. -/

/-- The endpoint key `(address, encrypted)` where
`address = (gethostbyname(hostname), port)`. -/
abbrev EndpointKey := (String × Option Nat) × Bool

/-- The `CQueueLRU` state.  `destroyedKeys` is a ghost log of the keys
whose pools were destroyed by LRU eviction, in eviction order. -/
structure CQueueLRU where
  maxQueues : Option Int
  maxConn : Option Int
  entries : List (EndpointKey × HTTPConnectionQueue)
  destroyedKeys : List EndpointKey
deriving Repr, DecidableEq

/-- `CQueueLRU.__init__`. -/
def initLRU (maxQueues maxConn : Option Int) : CQueueLRU :=
  { maxQueues := maxQueues, maxConn := maxConn, entries := [], destroyedKeys := [] }

/-- Look up `key` in the entry list and run `pool.get()` on its pool in
place; `none` when the key is absent. -/
def getFromEntries (limit : Option Nat) (key : EndpointKey) :
    List (EndpointKey × HTTPConnectionQueue) →
    Option (Conn × List (EndpointKey × HTTPConnectionQueue))
  | [] => none
  | (k, p) :: rest =>
    if k = key then
      let r := HTTPConnectionQueue.get limit p
      some (r.1, (k, r.2) :: rest)
    else
      match getFromEntries limit key rest with
      | none => none
      | some (c, rest2) => some (c, (k, p) :: rest2)

/-- `CQueueLRU.__getitem__`: under the lock, if the key is present pop a
connection from its pool (no reordering of the LRU list), otherwise
synthesize a fresh standalone connection without inserting a pool. -/
def CQueueLRU.getitem (limit : Option Nat) (s : CQueueLRU) (key : EndpointKey) :
    Conn × CQueueLRU :=
  match getFromEntries limit key s.entries with
  | some (c, entries2) => (c, { s with entries := entries2 })
  | none => (connection_object, s)

/-- Extract the (unique) entry with the given key, returning it and the
remaining list in order. -/
def extractKey (key : EndpointKey) :
    List (EndpointKey × HTTPConnectionQueue) →
    Option ((EndpointKey × HTTPConnectionQueue) × List (EndpointKey × HTTPConnectionQueue))
  | [] => none
  | e :: rest =>
    if e.1 = key then some (e, rest)
    else
      match extractKey key rest with
      | none => none
      | some (f, rest2) => some (f, e :: rest2)

/-- The move-to-front step of `__setitem__` for an existing key: when the
node is already `newest` nothing happens, otherwise it is unlinked and
relinked at the head (the source handles the `oldest` case by retargeting
`oldest` to the node's predecessor, which in list terms is the same
removal). -/
def moveToFront (key : EndpointKey) (l : List (EndpointKey × HTTPConnectionQueue)) :
    List (EndpointKey × HTTPConnectionQueue) :=
  match l with
  | [] => []
  | h :: t =>
    if h.1 = key then l
    else
      match extractKey key t with
      | none => l
      | some (e, t2) => e :: h :: t2

/-- The eviction loop of `__setitem__`, with an explicit structural fuel
(each iteration removes the last entry, so `entries.length` fuel always
suffices; the fuel-0-with-nonempty-list branch is unreachable from
`evictLoop` below): while `len(table) + 1 > max_queues` delete the
oldest node (remove from table, unlink, `destroy` its pool).  When the
list is exhausted while the condition still holds (only possible when
`max_queues ≤ 0`) the source dereferences `self.oldest = None` and
raises `AttributeError`; modelled as `none`. -/
def evictLoopFuel (m : Int) :
    Nat → List (EndpointKey × HTTPConnectionQueue) → List EndpointKey →
    Option (List (EndpointKey × HTTPConnectionQueue) × List EndpointKey)
  | fuel, entries, destroyed =>
    if (entries.length : Int) + 1 > m then
      match entries.getLast? with
      | none => none
      | some last =>
        match fuel with
        | 0 => none
        | fuel + 1 => evictLoopFuel m fuel entries.dropLast (destroyed ++ [last.1])
    else some (entries, destroyed)

/-- The eviction loop of `__setitem__` (see `evictLoopFuel`). -/
def evictLoop (m : Int)
    (entries : List (EndpointKey × HTTPConnectionQueue))
    (destroyed : List EndpointKey) :
    Option (List (EndpointKey × HTTPConnectionQueue) × List EndpointKey) :=
  evictLoopFuel m entries.length entries destroyed

/-- `CQueueLRU.__setitem__`: for a present key, move its node to the
head and `put` the connection into its pool; for an absent key, evict
LRU tails while over the bound, then create a fresh pool, link it at the
head, insert it into the table and `put` the connection into it.
`none` models the `AttributeError` crash of the empty-eviction corner. -/
def CQueueLRU.setitem (s : CQueueLRU) (key : EndpointKey) (c : Conn) :
    Option CQueueLRU :=
  if s.entries.any (fun e => e.1 == key) then
    match moveToFront key s.entries with
    | [] => none
    | (k, p) :: rest =>
      some { s with entries := (k, HTTPConnectionQueue.put p c) :: rest }
  else
    match s.maxQueues with
    | none =>
      some { s with
        entries := (key, HTTPConnectionQueue.put (initPool s.maxConn) c) :: s.entries }
    | some m =>
      match evictLoop m s.entries s.destroyedKeys with
      | none => none
      | some (entries2, destroyed2) =>
        some { s with
          entries := (key, HTTPConnectionQueue.put (initPool s.maxConn) c) :: entries2,
          destroyedKeys := destroyed2 }

/-- A single operation against the LRU cache, from the pipeline's
perspective: `acquire` is `__getitem__`, `release` is `__setitem__`. -/
inductive LRUOp
  | acquire (key : EndpointKey)
  | release (key : EndpointKey) (c : Conn)

/-- Run a sequence of LRU operations (every structural operation holds
the single mutex, so any interleaving is a sequence); `none` when some
`release` hit the empty-eviction crash. -/
def runLRUOps (limit : Option Nat) : List LRUOp → CQueueLRU → Option CQueueLRU
  | [], s => some s
  | .acquire k :: ops, s => runLRUOps limit ops (CQueueLRU.getitem limit s k).2
  | .release k c :: ops, s =>
    match s.setitem k c with
    | none => none
    | some s2 => runLRUOps limit ops s2

/-! ## The request pipeline (`HTTPConnectionControl.request`)

External library calls are parameters of `Env`; the connection-pool side
effects of the pipeline (`cq_lru[...]` / `cq_lru[...] = conn`) are
verified separately through `CQueueLRU` above, and are not observable in
the descriptor, so the pipeline model tracks instead a ghost trace of
the dispatched requests' headers and the number of network requests. -/

/-- The result of `urlparse.urlparse` (only the attributes the source
reads). -/
structure URLParts where
  scheme : String
  netloc : String
  hostname : String
  path : String := ""
  query : String := ""
deriving Repr, DecidableEq

/-- One network response, as the source observes it through `httplib`:
`status`, `getheaders()` (keys lower-cased by `httplib`),
`getheader('location')` and `read()`. -/
structure NetResponse where
  status : Nat
  headers : Dict
  location : String
  body : String
deriving Repr, DecidableEq

/-- The environment of one pipeline run: the global stop flag as
observed, the handler's `pre_process` hook, and the external library
functions.  `net j = none` models a transport-level exception raised
while dispatching the `j`-th request of the run; `gzipDecode = none`
models `gzip.GzipFile(...).read()` raising `IOError`. -/
structure Env where
  stop : Bool
  preProcess : RequestResponse → RequestResponse
  urlparse : String → URLParts
  urljoin : String → String → String
  net : Nat → Option NetResponse
  gzipDecode : String → Option String
  zcat : String → String

/-- `VERSION` of the source. -/
def VERSION : String := "0.5.1"

/-- The header-defaulting block of `request` (lines 302–311 of the
source), applied to the headers dict.  Note the source tests the
misspelled key `'Accept-Languge'` before assigning `'Accept-Language'`. -/
def applyHeaderDefaults (headers : Dict) (hostname : String) : Dict :=
  let h1 := if dictContains headers "Accept" then headers
            else dictInsert headers "Accept" "*/*"
  let h2 := if dictContains h1 "Accept-Encoding" then h1
            else dictInsert h1 "Accept-Encoding" "gzip"
  let h3 := if dictContains h2 "Accept-Languge" then h2
            else dictInsert h2 "Accept-Language" "en-us,en;q=0.8"
  let h4 := if dictContains h3 "Host" then h3
            else dictInsert h3 "Host" hostname
  if dictContains h4 "User-Agent" then h4
  else dictInsert h4 "User-Agent" ("CRAWL-E/" ++ VERSION)

/-- The terminal branch of `request` (lines 340–363): record time,
status and headers; when `content-encoding` is exactly `gzip`, decode
in-process, falling back to the `zcat` subprocess on `IOError` and
appending the `'Used zcat'` tag; otherwise the raw body. -/
def terminalStep (env : Env) (rr : RequestResponse) (resp : NetResponse)
    (k : Nat) : RequestResponse :=
  let rr1 : RequestResponse :=
    { rr with response_time := some k,
              response_status := some resp.status,
              response_headers := some resp.headers }
  if dictLookup resp.headers "content-encoding" = some "gzip" then
    match env.gzipDecode resp.body with
    | some decoded => { rr1 with response_body := some decoded }
    | none =>
      { rr1 with response_body := some (env.zcat resp.body),
                 extra := rr1.extra ++ ["Used zcat"] }
  else { rr1 with response_body := some resp.body }

/-- The outcome of one pipeline run: the descriptor as mutated by the
run (mutations survive a raised exception), the raised exception if any
(`none` = normal return), the number of network requests performed, and
the ghost trace of the headers dict of each dispatched request. -/
structure PipelineResult where
  rr : RequestResponse
  err : Option CrawleError
  requests : Nat
  sent : List Dict
deriving Repr, DecidableEq

/-- The header-handling part of a dispatch (lines 298–322 of the
source): build the `headers` dict (the caller's dict when truthy, else a
fresh one), apply the defaults, and add `Content-Type` when
`request_params` is truthy.  Because the source's `headers` variable
*aliases* a truthy `req_res.request_headers`, the mutated dict is
written back into the descriptor exactly in that case.  Returns the
updated descriptor and the headers dict that is dispatched. -/
def normalizeHeaders (rr : RequestResponse) (hostname : String) :
    RequestResponse × Dict :=
  let aliased : Bool := match rr.request_headers with
                        | some h => ¬ h.isEmpty
                        | none => false
  let headers1 := applyHeaderDefaults (rr.request_headers.getD []) hostname
  let paramsTruthy : Bool := match rr.request_params with
                             | some p => ¬ p.isEmpty
                             | none => false
  let headers2 :=
    if paramsTruthy then
      dictInsert headers1 "Content-Type" "application/x-www-form-urlencoded"
    else headers1
  (if aliased then { rr with request_headers := some headers2 } else rr, headers2)

/-- `HTTPConnectionControl.request`, recursion made total with a fuel
parameter (`none` = fuel exhausted; the redirect budget bounds the real
recursion, see `redirect_budget_bound`).  `k` is the index of the next
network request in `env.net`. -/
def request (env : Env) : Nat → Nat → RequestResponse → Option PipelineResult
  | 0, _, _ => none
  | fuel + 1, k, rr0 =>
    if env.stop then some ⟨rr0, some .stopped, 0, []⟩
    else
      let rr := env.preProcess rr0
      match rr.response_url with
      | none => some ⟨rr, some .aborted, 0, []⟩
      | some url =>
        let u := env.urlparse url
        if ¬ (u.scheme = "http" ∨ u.scheme = "https") ∨ u.netloc = "" then
          some ⟨rr, some .unsupportedScheme, 0, []⟩
        else
          let nh := normalizeHeaders rr u.hostname
          let rr1 := nh.1
          let headers2 := nh.2
          match env.net k with
          | none => some ⟨rr1, some .transport, 1, [headers2]⟩
          | some resp =>
            if resp.status = 301 ∨ resp.status = 302 ∨ resp.status = 303 then
              match rr1.redirects with
              | none => some ⟨terminalStep env rr1 resp k, none, 1, [headers2]⟩
              | some n =>
                if n ≤ 0 then some ⟨rr1, some .redirectsExceeded, 1, [headers2]⟩
                else
                  let rr2 : RequestResponse :=
                    { rr1 with redirects := some (n - 1),
                               response_url := some (env.urljoin url resp.location) }
                  match request env fuel (k + 1) rr2 with
                  | none => none
                  | some res =>
                    some ⟨res.rr, res.err, res.requests + 1, headers2 :: res.sent⟩
            else some ⟨terminalStep env rr1 resp k, none, 1, [headers2]⟩

/-- The URL reached after following `j` redirect hops starting from URL
`u` with the next network request at index `k`: each hop joins the
current URL with the `Location` header of the hop's response. -/
def urlAfter (env : Env) : Nat → String → Nat → String
  | _, u, 0 => u
  | k, u, j + 1 =>
    match env.net k with
    | some resp => urlAfter env (k + 1) (env.urljoin u resp.location) j
    | none => u

/-! ## The worker loop (`ControlThread.run`) -/

/-- One interaction of the worker with its queue, as a script step:
`item rr` is `queue.get()` returning a descriptor, `empty woken` is
`queue.get()` returning `None` with `woken` the state of the
`stop_wait_event` after the timed wait, and `qerror` is `queue.get()`
raising. -/
inductive WStep
  | item (rr : RequestResponse)
  | empty (woken : Bool)
  | qerror

/-- Observable events of a worker run (only handler calls matter to the
claims): `processCall rr` is `handler.process(rr, queue)`. -/
inductive WEvent
  | processCall (rr : RequestResponse)
deriving Repr, DecidableEq

/-- The worker's fetch step: run the pipeline, and stamp any raised
exception into `r.error` (line 427 of the source).  `pipe` is the
pipeline as a function returning the mutated descriptor and the raised
exception. -/
def stampError (pipe : RequestResponse → RequestResponse × Option CrawleError)
    (rr : RequestResponse) : RequestResponse :=
  match (pipe rr).2 with
  | some e => { (pipe rr).1 with error := some e }
  | none => (pipe rr).1

/-- `ControlThread.run`, driven by a finite script of queue
interactions; returns the list of emitted events.  An empty script means
the run is observed up to that point.  `retrys` is the class attribute
`EMPTY_QUEUE_RETRYS`; `retryCount` the per-worker counter (reset to 0
after each fetched item, kept across a woken wait, incremented by an
unwoken wait that has retries left).  Breaking out of the loop (queue
error, retries exhausted — both of which also latch the global stop
flag) ends the event list. -/
def workerRun (pipe : RequestResponse → RequestResponse × Option CrawleError)
    (retrys : Nat) : List WStep → Nat → List WEvent
  | [], _ => []
  | .qerror :: _, _ => []
  | .empty woken :: rest, retryCount =>
    if woken then workerRun pipe retrys rest retryCount
    else if retryCount < retrys then workerRun pipe retrys rest (retryCount + 1)
    else []
  | .item rr :: rest, _ =>
    .processCall (stampError pipe rr) :: workerRun pipe retrys rest 0

/-! ## Concrete instances used by witnesses and counterexamples -/

/-- A simple environment in which every URL parses to host `a.test` over
http, the network always answers 200 with body `hello`, and gzip decoding
succeeds as the identity. -/
def plainEnv : Env where
  stop := false
  preProcess := fun r => r
  urlparse := fun _ => ⟨"http", "a.test", "a.test", "/", ""⟩
  urljoin := fun _ loc => loc
  net := fun _ => some ⟨200, [("content-type", "text/html")], "", "hello"⟩
  gzipDecode := fun s => some s
  zcat := fun s => s

/-- A descriptor whose caller supplied `Accept-Language: X` and nothing
else. -/
def rrAcceptLanguage : RequestResponse :=
  { request_url := "http://a.test/", response_url := some "http://a.test/",
    request_headers := some [("Accept-Language", "X")] }

/-- A plain descriptor with no caller headers. -/
def rrPlain : RequestResponse :=
  { request_url := "http://a.test/", response_url := some "http://a.test/" }

/-- `plainEnv` with the global stop flag set. -/
def stopEnv : Env := { plainEnv with stop := true }

/-- `plainEnv` with a `pre_process` hook that vetoes every URL. -/
def vetoEnv : Env :=
  { plainEnv with preProcess := fun r => { r with response_url := none } }

/-- `plainEnv` with URLs parsing to an unsupported scheme. -/
def ftpEnv : Env :=
  { plainEnv with urlparse := fun _ => ⟨"ftp", "a.test", "a.test", "/", ""⟩ }

/-- An environment whose network always answers a 301 redirect. -/
def redirEnv : Env :=
  { plainEnv with net := fun _ => some ⟨301, [], "/loop", ""⟩ }

/-- A descriptor with a redirect budget of 2. -/
def rrRedirect : RequestResponse :=
  { request_url := "http://a.test/", response_url := some "http://a.test/",
    redirects := some 2 }

/-- The pipeline outcome of a plain one-hop run (used by witnesses). -/
def c4res : PipelineResult :=
  (request plainEnv 1 0 rrPlain).getD ⟨rrPlain, none, 0, []⟩

/-- A pool at capacity: `max_conn = 2` with two idle connections. -/
def poolAtCap : HTTPConnectionQueue :=
  { queue := [⟨0⟩, ⟨1⟩], connections := 2, maxConn := some 2, closedConns := [] }

/-- A pool holding one idle connection whose `request_count` is 5. -/
def poolStale : HTTPConnectionQueue :=
  { queue := [⟨5⟩], connections := 1, maxConn := some 4, closedConns := [] }

/-- Three distinct endpoint keys. -/
def kA : EndpointKey := (("10.0.0.1", some 80), false)

/-- See `kA`. -/
def kB : EndpointKey := (("10.0.0.2", some 80), false)

/-- See `kA`. -/
def kC : EndpointKey := (("10.0.0.3", some 80), false)

/-- A concrete LRU operation sequence releasing three distinct endpoint
keys into a cache with `max_queues = 2`. -/
def lruOpsW : List LRUOp :=
  [.release kA ⟨0⟩, .release kB ⟨0⟩, .release kC ⟨0⟩, .acquire kB]

/-- The state reached by `lruOpsW` from a fresh cache. -/
def lruAfterW : CQueueLRU :=
  (runLRUOps none lruOpsW (initLRU (some 2) (some 4))).getD (initLRU none none)

/-- A cache at capacity `max_queues = 2`, tracking `kA` (newest) and
`kB` (oldest). -/
def lruAtCap : CQueueLRU :=
  { maxQueues := some 2, maxConn := some 4,
    entries := [(kA, initPool (some 4)), (kB, initPool (some 4))],
    destroyedKeys := [] }

/-- An environment whose single response is gzip-tagged and whose
in-process gzip decoder raises, forcing the `zcat` fallback. -/
def gzEnv : Env :=
  { plainEnv with
    net := fun _ => some ⟨200, [("content-encoding", "gzip")], "", "gzbytes"⟩,
    gzipDecode := fun _ => none,
    zcat := fun _ => "gztail" }

/-- A pipeline stub that always raises a transport error, leaving the
descriptor untouched (used by the worker witnesses). -/
def pipeT : RequestResponse → RequestResponse × Option CrawleError :=
  fun r => (r, some CrawleError.transport)

/-- An environment where the first request 302-redirects from host
`a.test` to host `b.test`, whose second response is a terminal 200. -/
def twoHostEnv : Env :=
  { plainEnv with
    urlparse := fun s =>
      if s = "http://b.test/x" then ⟨"http", "b.test", "b.test", "/x", ""⟩
      else ⟨"http", "a.test", "a.test", "/", ""⟩,
    net := fun j =>
      if j = 0 then some ⟨302, [], "http://b.test/x", ""⟩
      else some ⟨200, [], "", "done"⟩ }

/-- A descriptor with a non-empty caller-supplied headers dict that does
not set `Host`. -/
def rrHdr : RequestResponse :=
  { request_url := "http://a.test/", response_url := some "http://a.test/",
    request_headers := some [("X-Custom", "1")], redirects := some 5 }

end Crawle

namespace Crawle

/-! ## Theorems -/

/-- Helper: the unfolding of `request` on nonzero fuel when the stop
flag is clear and the hook produced a URL. -/
theorem request_unfold_dispatch (env : Env) (fuel k : Nat) (rr : RequestResponse)
    (hstop : env.stop = false) (u : String)
    (hurl : (env.preProcess rr).response_url = some u)
    (hscheme : (env.urlparse u).scheme = "http" ∨ (env.urlparse u).scheme = "https")
    (hnetloc : (env.urlparse u).netloc ≠ "") :
    request env (fuel + 1) k rr =
      (match env.net k with
       | none =>
         some ⟨(normalizeHeaders (env.preProcess rr) (env.urlparse u).hostname).1,
               some .transport, 1,
               [(normalizeHeaders (env.preProcess rr) (env.urlparse u).hostname).2]⟩
       | some resp =>
         if resp.status = 301 ∨ resp.status = 302 ∨ resp.status = 303 then
           match (normalizeHeaders (env.preProcess rr) (env.urlparse u).hostname).1.redirects with
           | none =>
             some ⟨terminalStep env
                     (normalizeHeaders (env.preProcess rr) (env.urlparse u).hostname).1 resp k,
                   none, 1,
                   [(normalizeHeaders (env.preProcess rr) (env.urlparse u).hostname).2]⟩
           | some n =>
             if n ≤ 0 then
               some ⟨(normalizeHeaders (env.preProcess rr) (env.urlparse u).hostname).1,
                     some .redirectsExceeded, 1,
                     [(normalizeHeaders (env.preProcess rr) (env.urlparse u).hostname).2]⟩
             else
               match request env fuel (k + 1)
                   { (normalizeHeaders (env.preProcess rr) (env.urlparse u).hostname).1 with
                     redirects := some (n - 1),
                     response_url := some (env.urljoin u resp.location) } with
               | none => none
               | some res =>
                 some ⟨res.rr, res.err, res.requests + 1,
                       (normalizeHeaders (env.preProcess rr) (env.urlparse u).hostname).2
                         :: res.sent⟩
         else
           some ⟨terminalStep env
                   (normalizeHeaders (env.preProcess rr) (env.urlparse u).hostname).1 resp k,
                 none, 1,
                 [(normalizeHeaders (env.preProcess rr) (env.urlparse u).hostname).2]⟩) := by
  simp only [request, hstop, Bool.false_eq_true, if_false, hurl]
  rw [if_neg (by push_neg; exact ⟨hscheme, hnetloc⟩)]

/-- Helper: once the pipeline is past its three entry checks (stop flag
clear, hook did not veto, URL valid), every outcome it can return
performed at least one network request. -/
theorem request_one_le_requests (env : Env) (fuel k : Nat) (rr : RequestResponse)
    (hstop : env.stop = false) (u : String)
    (hurl : (env.preProcess rr).response_url = some u)
    (hscheme : (env.urlparse u).scheme = "http" ∨ (env.urlparse u).scheme = "https")
    (hnetloc : (env.urlparse u).netloc ≠ "")
    (res : PipelineResult) (hres : request env (fuel + 1) k rr = some res) :
    1 ≤ res.requests := by
  rw [request_unfold_dispatch env fuel k rr hstop u hurl hscheme hnetloc] at hres
  rcases hnet : env.net k with _ | resp
  · simp only [hnet] at hres
    cases hres
    simp
  · simp only [hnet] at hres
    split at hres
    · split at hres
      · cases hres; simp
      · split at hres
        · cases hres; simp
        · split at hres
          · cases hres
          · cases hres; simp
    · cases hres; simp

/-- C3: the pipeline checks its failure conditions in order before any
network activity: a set stop flag at entry raises `Stopped` (before the
hook runs, leaving the descriptor untouched); otherwise the hook runs
and `Aborted` is raised with zero network requests exactly when the
hook left `response_url` at the skip sentinel `None`; otherwise
`UnsupportedScheme` is raised with zero network requests exactly when
the parsed `response_url` has a scheme other than http or https or an
empty host. -/
theorem pipeline_entry_check_order (env : Env) (fuel k : Nat) (rr : RequestResponse) :
    (env.stop = true → request env (fuel + 1) k rr = some ⟨rr, some .stopped, 0, []⟩) ∧
    (env.stop = false →
      (request env (fuel + 1) k rr = some ⟨env.preProcess rr, some .aborted, 0, []⟩ ↔
        (env.preProcess rr).response_url = none)) ∧
    (env.stop = false → ∀ u, (env.preProcess rr).response_url = some u →
      (request env (fuel + 1) k rr =
          some ⟨env.preProcess rr, some .unsupportedScheme, 0, []⟩ ↔
        (¬ ((env.urlparse u).scheme = "http" ∨ (env.urlparse u).scheme = "https") ∨
          (env.urlparse u).netloc = ""))) := by
  refine ⟨fun hstop => by simp [request, hstop], fun hstop => ?_, fun hstop u hurl => ?_⟩
  · constructor
    · intro heq
      rcases hu : (env.preProcess rr).response_url with _ | u
      · rfl
      · exfalso
        by_cases hcond : (¬ ((env.urlparse u).scheme = "http" ∨
            (env.urlparse u).scheme = "https") ∨ (env.urlparse u).netloc = "")
        · rw [show request env (fuel + 1) k rr =
              some ⟨env.preProcess rr, some .unsupportedScheme, 0, []⟩ from by
            simp only [request, hstop, Bool.false_eq_true, if_false, hu]
            rw [if_pos hcond]] at heq
          simp at heq
        · push_neg at hcond
          have h1 := request_one_le_requests env fuel k rr hstop u hu hcond.1 hcond.2 _ heq
          simp at h1
    · intro hnone
      simp [request, hstop, hnone]
  · constructor
    · intro heq
      by_contra hgood
      push_neg at hgood
      have h1 := request_one_le_requests env fuel k rr hstop u hurl hgood.1 hgood.2 _ heq
      simp at h1
    · intro hbad
      simp only [request, hstop, Bool.false_eq_true, if_false, hurl]
      rw [if_pos hbad]

/-! ### Helper lemmas: `normalizeHeaders` only touches `request_headers` -/

@[simp] theorem normalizeHeaders_redirects (rr : RequestResponse) (h : String) :
    (normalizeHeaders rr h).1.redirects = rr.redirects := by
  simp only [normalizeHeaders]
  split <;> rfl

@[simp] theorem normalizeHeaders_response_url (rr : RequestResponse) (h : String) :
    (normalizeHeaders rr h).1.response_url = rr.response_url := by
  simp only [normalizeHeaders]
  split <;> rfl

@[simp] theorem normalizeHeaders_error (rr : RequestResponse) (h : String) :
    (normalizeHeaders rr h).1.error = rr.error := by
  simp only [normalizeHeaders]
  split <;> rfl

@[simp] theorem normalizeHeaders_response_status (rr : RequestResponse) (h : String) :
    (normalizeHeaders rr h).1.response_status = rr.response_status := by
  simp only [normalizeHeaders]
  split <;> rfl

@[simp] theorem normalizeHeaders_response_body (rr : RequestResponse) (h : String) :
    (normalizeHeaders rr h).1.response_body = rr.response_body := by
  simp only [normalizeHeaders]
  split <;> rfl

@[simp] theorem normalizeHeaders_extra (rr : RequestResponse) (h : String) :
    (normalizeHeaders rr h).1.extra = rr.extra := by
  simp only [normalizeHeaders]
  split <;> rfl

@[simp] theorem normalizeHeaders_request_params (rr : RequestResponse) (h : String) :
    (normalizeHeaders rr h).1.request_params = rr.request_params := by
  simp only [normalizeHeaders]
  split <;> rfl

/-! ### C2: redirect budget -/

/-- The induction behind C2, on `m = n.toNat`.  Part 1: with fuel
`m + 1` the pipeline always returns (the recursion terminates within the
budget) and performs at most `m + 1` network requests, for any handler
hook that does not refill the budget.  Part 2: when nothing else can
fail and every response is a 301/302/303 redirect, the run fails with
`RedirectsExceeded` after exactly `m + 1` requests. -/
theorem redirect_budget_core (env : Env)
    (hpre : ∀ r, (env.preProcess r).redirects = r.redirects) :
    ∀ (m : Nat) (n : Int), 0 ≤ n → n.toNat = m → ∀ (k : Nat) (rr : RequestResponse),
      rr.redirects = some n →
      ((∃ res, request env (m + 1) k rr = some res ∧ res.requests ≤ m + 1) ∧
       (env.stop = false →
        (∀ r, (env.preProcess r).response_url = r.response_url) →
        (∀ s, (env.urlparse s).scheme = "http" ∧ (env.urlparse s).netloc ≠ "") →
        (∀ j resp, env.net j = some resp →
           resp.status = 301 ∨ resp.status = 302 ∨ resp.status = 303) →
        (∀ j, env.net j ≠ none) →
        rr.response_url ≠ none →
        ∃ res, request env (m + 1) k rr = some res ∧
          res.err = some CrawleError.redirectsExceeded ∧ res.requests = m + 1)) := by
  intro m
  induction m with
  | zero =>
    intro n hn0 hnm k rr hrr
    have hn : n = 0 := by omega
    subst hn
    constructor
    · cases hstop : env.stop
      · rcases hu : (env.preProcess rr).response_url with _ | u
        · exact ⟨⟨env.preProcess rr, some .aborted, 0, []⟩,
            by simp [request, hstop, hu], by simp⟩
        · by_cases hcond : (¬ ((env.urlparse u).scheme = "http" ∨
              (env.urlparse u).scheme = "https") ∨ (env.urlparse u).netloc = "")
          · refine ⟨⟨env.preProcess rr, some .unsupportedScheme, 0, []⟩, ?_, by simp⟩
            simp only [request, hstop, Bool.false_eq_true, if_false, hu]
            rw [if_pos hcond]
          · push_neg at hcond
            rw [request_unfold_dispatch env 0 k rr hstop u hu hcond.1 hcond.2]
            have hrr1 : (normalizeHeaders (env.preProcess rr)
                (env.urlparse u).hostname).1.redirects = some 0 := by
              rw [normalizeHeaders_redirects, hpre, hrr]
            rcases hnet : env.net k with _ | resp
            · exact ⟨⟨(normalizeHeaders (env.preProcess rr) (env.urlparse u).hostname).1, some .transport, 1, [(normalizeHeaders (env.preProcess rr) (env.urlparse u).hostname).2]⟩, by simp [hnet], by simp⟩
            · by_cases hst : resp.status = 301 ∨ resp.status = 302 ∨ resp.status = 303
              · refine ⟨⟨(normalizeHeaders (env.preProcess rr) (env.urlparse u).hostname).1,
                  some .redirectsExceeded, 1, [(normalizeHeaders (env.preProcess rr) (env.urlparse u).hostname).2]⟩, ?_, by simp⟩
                simp only [hnet, hrr1]
                rw [if_pos hst, if_pos (by omega : (0 : Int) ≤ 0)]
              · refine ⟨⟨terminalStep env (normalizeHeaders (env.preProcess rr) (env.urlparse u).hostname).1 resp k,
                  none, 1, [(normalizeHeaders (env.preProcess rr) (env.urlparse u).hostname).2]⟩, ?_, by simp⟩
                simp only [hnet]
                rw [if_neg hst]
      · exact ⟨⟨rr, some .stopped, 0, []⟩, by simp [request, hstop], by simp⟩
    · intro hstop hpu hparse hred hnn hru
      rcases hu : rr.response_url with _ | u
      · exact absurd hu hru
      · have hu2 : (env.preProcess rr).response_url = some u := by rw [hpu, hu]
        rw [request_unfold_dispatch env 0 k rr hstop u hu2
          (Or.inl (hparse u).1) (hparse u).2]
        have hrr1 : (normalizeHeaders (env.preProcess rr)
            (env.urlparse u).hostname).1.redirects = some 0 := by
          rw [normalizeHeaders_redirects, hpre, hrr]
        rcases hnet : env.net k with _ | resp
        · exact absurd hnet (hnn k)
        · refine ⟨⟨(normalizeHeaders (env.preProcess rr) (env.urlparse u).hostname).1,
            some .redirectsExceeded, 1, [(normalizeHeaders (env.preProcess rr) (env.urlparse u).hostname).2]⟩, ?_, rfl, rfl⟩
          simp only [hnet, hrr1]
          rw [if_pos (hred k resp hnet), if_pos (by omega : (0 : Int) ≤ 0)]
  | succ m ih =>
    intro n hn0 hnm k rr hrr
    have hn1 : 1 ≤ n := by omega
    constructor
    · cases hstop : env.stop
      · rcases hu : (env.preProcess rr).response_url with _ | u
        · exact ⟨⟨env.preProcess rr, some .aborted, 0, []⟩,
            by simp [request, hstop, hu], by simp⟩
        · by_cases hcond : (¬ ((env.urlparse u).scheme = "http" ∨
              (env.urlparse u).scheme = "https") ∨ (env.urlparse u).netloc = "")
          · refine ⟨⟨env.preProcess rr, some .unsupportedScheme, 0, []⟩, ?_, by simp⟩
            simp only [request, hstop, Bool.false_eq_true, if_false, hu]
            rw [if_pos hcond]
          · push_neg at hcond
            rw [request_unfold_dispatch env (m + 1) k rr hstop u hu hcond.1 hcond.2]
            have hrr1 : (normalizeHeaders (env.preProcess rr)
                (env.urlparse u).hostname).1.redirects = some n := by
              rw [normalizeHeaders_redirects, hpre, hrr]
            rcases hnet : env.net k with _ | resp
            · exact ⟨⟨(normalizeHeaders (env.preProcess rr) (env.urlparse u).hostname).1, some .transport, 1, [(normalizeHeaders (env.preProcess rr) (env.urlparse u).hostname).2]⟩, by simp [hnet], by simp⟩
            · by_cases hst : resp.status = 301 ∨ resp.status = 302 ∨ resp.status = 303
              · have hrec := (ih (n - 1) (by omega) (by omega) (k + 1)
                  { (normalizeHeaders (env.preProcess rr) (env.urlparse u).hostname).1 with
                    redirects := some (n - 1),
                    response_url := some (env.urljoin u resp.location) } rfl).1
                rcases hrec with ⟨res2, hres2, hcount⟩
                refine ⟨⟨res2.rr, res2.err, res2.requests + 1,
                  (normalizeHeaders (env.preProcess rr) (env.urlparse u).hostname).2
                    :: res2.sent⟩, ?_, by simp; omega⟩
                simp only [hnet, hrr1]
                rw [if_pos hst, if_neg (by omega : ¬ n ≤ 0), hres2]
              · refine ⟨⟨terminalStep env (normalizeHeaders (env.preProcess rr) (env.urlparse u).hostname).1 resp k,
                  none, 1, [(normalizeHeaders (env.preProcess rr) (env.urlparse u).hostname).2]⟩, ?_, by simp⟩
                simp only [hnet]
                rw [if_neg hst]
      · exact ⟨⟨rr, some .stopped, 0, []⟩, by simp [request, hstop], by simp⟩
    · intro hstop hpu hparse hred hnn hru
      rcases hu : rr.response_url with _ | u
      · exact absurd hu hru
      · have hu2 : (env.preProcess rr).response_url = some u := by rw [hpu, hu]
        rw [request_unfold_dispatch env (m + 1) k rr hstop u hu2
          (Or.inl (hparse u).1) (hparse u).2]
        have hrr1 : (normalizeHeaders (env.preProcess rr)
            (env.urlparse u).hostname).1.redirects = some n := by
          rw [normalizeHeaders_redirects, hpre, hrr]
        rcases hnet : env.net k with _ | resp
        · exact absurd hnet (hnn k)
        · have hrec := (ih (n - 1) (by omega) (by omega) (k + 1)
            { (normalizeHeaders (env.preProcess rr) (env.urlparse u).hostname).1 with
              redirects := some (n - 1),
              response_url := some (env.urljoin u resp.location) } rfl).2
            hstop hpu hparse hred hnn (by simp)
          rcases hrec with ⟨res2, hres2, herr2, hcount2⟩
          refine ⟨⟨res2.rr, res2.err, res2.requests + 1,
            (normalizeHeaders (env.preProcess rr) (env.urlparse u).hostname).2
              :: res2.sent⟩, ?_, herr2, by simp [hcount2]⟩
          simp only [hnet, hrr1]
          rw [if_pos (hred k resp hnet), if_neg (by omega : ¬ n ≤ 0), hres2]

/-- C2: for a descriptor whose redirect budget is a non-negative integer
`n` (not the do-not-follow sentinel `None`), and a `pre_process` hook
that does not refill the budget, the redirect recursion terminates
within fuel `n + 1` and performs at most `n + 1` network requests; and
when every response in the chain is a 301/302/303 redirect (and nothing
else fails), the pipeline fails with `RedirectsExceeded` after exactly
`n + 1` requests. -/
theorem redirect_budget_bound (env : Env) (n : Int) (k : Nat) (rr : RequestResponse)
    (hpre : ∀ r, (env.preProcess r).redirects = r.redirects)
    (hn0 : 0 ≤ n) (hrr : rr.redirects = some n) :
    ((∃ res, request env (n.toNat + 1) k rr = some res ∧ res.requests ≤ n.toNat + 1) ∧
     (env.stop = false →
      (∀ r, (env.preProcess r).response_url = r.response_url) →
      (∀ s, (env.urlparse s).scheme = "http" ∧ (env.urlparse s).netloc ≠ "") →
      (∀ j resp, env.net j = some resp →
         resp.status = 301 ∨ resp.status = 302 ∨ resp.status = 303) →
      (∀ j, env.net j ≠ none) →
      rr.response_url ≠ none →
      ∃ res, request env (n.toNat + 1) k rr = some res ∧
        res.err = some CrawleError.redirectsExceeded ∧
        res.requests = n.toNat + 1)) :=
  redirect_budget_core env hpre n.toNat n hn0 rfl k rr hrr

/-- C3 witness: each entry check observed on a concrete run — the
stopped environment raises `Stopped` without touching the descriptor,
the vetoing hook yields `Aborted`, and an `ftp` URL yields
`UnsupportedScheme`, all with zero network requests. -/
theorem pipeline_entry_check_order_witness :
    (request stopEnv 1 0 rrPlain = some ⟨rrPlain, some .stopped, 0, []⟩) ∧
    (request vetoEnv 1 0 rrPlain =
      some ⟨{ rrPlain with response_url := none }, some .aborted, 0, []⟩) ∧
    (request ftpEnv 1 0 rrPlain = some ⟨rrPlain, some .unsupportedScheme, 0, []⟩) :=
  ⟨(pipeline_entry_check_order stopEnv 0 0 rrPlain).1 rfl,
   ((pipeline_entry_check_order vetoEnv 0 0 rrPlain).2.1 rfl).mpr rfl,
   ((pipeline_entry_check_order ftpEnv 0 0 rrPlain).2.2 rfl "http://a.test/" rfl).mpr
     (by decide)⟩

/-- C2 witness: a concrete 301 loop with budget 2 exhausts the budget
after exactly 3 network requests and fails with `RedirectsExceeded`. -/
theorem redirect_budget_bound_witness :
    (request redirEnv 3 0 rrRedirect).map (fun res => (res.err, res.requests)) =
      some (some CrawleError.redirectsExceeded, 3) := by
  obtain ⟨res, heq, herr, hcnt⟩ := (redirect_budget_bound redirEnv 2 0 rrRedirect
    (fun r => rfl) (by omega) rfl).2 rfl (fun r => rfl)
    (fun s => ⟨rfl, by simp [redirEnv, plainEnv]⟩)
    (fun j resp hj => by cases hj; exact Or.inl rfl)
    (fun j => by simp [redirEnv, plainEnv])
    (by simp [rrRedirect])
  rw [show request redirEnv 3 0 rrRedirect = some res from heq]
  simp [herr, hcnt]

/-- C1 (exhibiting the source bug): the pipeline's header-defaulting
tests the misspelled key `'Accept-Languge'`, so a caller-supplied
`Accept-Language: X` is *not* detected and the dispatched request
carries the default `en-us,en;q=0.8` instead of `X` — contradicting the
claim that each of the five default headers is added only when absent
and never overwrites a caller-supplied value. -/
theorem accept_language_default_overwrites_caller_value :
    (((request plainEnv 1 0 rrAcceptLanguage).bind (fun r => r.sent.head?)).bind
        (fun hs => dictLookup hs "Accept-Language") = some "en-us,en;q=0.8") ∧
    ¬ (((request plainEnv 1 0 rrAcceptLanguage).bind (fun r => r.sent.head?)).bind
        (fun hs => dictLookup hs "Accept-Language") = some "X") := by
  constructor
  · decide
  · decide

/-! ### C6 and C7: the per-endpoint pool -/

/-- Helper: `get` never changes `max_conn`, keeps `connections` in sync
with the queue length, and never lengthens the queue. -/
theorem get_preserves_pool (limit : Option Nat) (q : HTTPConnectionQueue)
    (hcount : q.connections = (q.queue.length : Int)) :
    (HTTPConnectionQueue.get limit q).2.maxConn = q.maxConn ∧
    (HTTPConnectionQueue.get limit q).2.connections =
      ((HTTPConnectionQueue.get limit q).2.queue.length : Int) ∧
    (HTTPConnectionQueue.get limit q).2.queue.length ≤ q.queue.length := by
  rcases hq : q.queue with _ | ⟨c, rest⟩
  · simp [HTTPConnectionQueue.get, hq, hcount] <;> omega
  · have hc : q.connections = (rest.length : Int) + 1 := by
      rw [hcount, hq]
      simp
    rcases limit with _ | L
    · simp [HTTPConnectionQueue.get, hq, hc] <;> omega
    · by_cases hlim : L ≠ 0 ∧ L ≤ c.requestCount
      · simp [HTTPConnectionQueue.get, hq, hc, if_pos hlim] <;> omega
      · simp [HTTPConnectionQueue.get, hq, hc, if_neg hlim] <;> omega

/-- Helper: `put` never changes `max_conn`, keeps `connections` in sync
with the queue length, and respects the bound `max_conn`. -/
theorem put_preserves_pool (q : HTTPConnectionQueue) (c : Conn) (m : Int)
    (hmc : q.maxConn = some m)
    (hcount : q.connections = (q.queue.length : Int))
    (hlen : q.queue.length ≤ m.toNat) :
    (q.put c).maxConn = some m ∧
    (q.put c).connections = ((q.put c).queue.length : Int) ∧
    (q.put c).queue.length ≤ m.toNat := by
  simp only [HTTPConnectionQueue.put, hmc]
  by_cases hfull : q.connections + 1 > m
  · rw [if_pos hfull]
    exact ⟨rfl, hcount, hlen⟩
  · rw [if_neg hfull]
    refine ⟨rfl, by simp [hcount], by simp; omega⟩

/-- Helper: the pool invariant (`max_conn` constant, `connections` equal
to the idle-queue length, length within the bound) is preserved by any
sequence of pool operations. -/
theorem runPoolOps_invariant (limit : Option Nat) (m : Int) (ops : List PoolOp)
    (q : HTTPConnectionQueue) (hmc : q.maxConn = some m)
    (hcount : q.connections = (q.queue.length : Int))
    (hlen : q.queue.length ≤ m.toNat) :
    (runPoolOps limit ops q).maxConn = some m ∧
    (runPoolOps limit ops q).connections =
      ((runPoolOps limit ops q).queue.length : Int) ∧
    (runPoolOps limit ops q).queue.length ≤ m.toNat := by
  induction ops generalizing q with
  | nil => exact ⟨hmc, hcount, hlen⟩
  | cons op ops ih =>
    cases op with
    | acquire =>
      have h := get_preserves_pool limit q hcount
      exact ih _ (h.1.trans hmc) h.2.1 (le_trans h.2.2 hlen)
    | release c =>
      have h := put_preserves_pool q c m hmc hcount hlen
      exact ih _ h.1 h.2.1 h.2.2

/-- C6: for every configured `max_conn` bound and every sequence of
acquire/release operations from a fresh pool, the number of idle
connections is at most `max_conn` at every quiescent point; and a
release into a pool already holding `max_conn` idle connections closes
the connection (incremented `use_count` and all) instead of queueing
it. -/
theorem pool_idle_cap (limit : Option Nat) (m : Int) :
    (∀ ops, (runPoolOps limit ops (initPool (some m))).queue.length ≤ m.toNat) ∧
    (∀ (q : HTTPConnectionQueue) (c : Conn),
      q.maxConn = some m → q.connections = (q.queue.length : Int) →
      (q.queue.length : Int) = m →
      (q.put c).queue = q.queue ∧
      (q.put c).closedConns =
        q.closedConns ++ [{ c with requestCount := c.requestCount + 1 }]) := by
  constructor
  · intro ops
    exact (runPoolOps_invariant limit m ops (initPool (some m)) rfl rfl
      (by simp [initPool])).2.2
  · intro q c hmc hcount hcap
    simp only [HTTPConnectionQueue.put, hmc]
    rw [if_pos (by omega)]
    exact ⟨rfl, rfl⟩

/-- C6 witness: with `max_conn = 2`, three releases leave at most two
idle connections, and a release into a full pool leaves its queue
untouched while closing the released connection. -/
theorem pool_idle_cap_witness :
    (runPoolOps none [PoolOp.release ⟨0⟩, PoolOp.release ⟨0⟩, PoolOp.release ⟨5⟩]
        (initPool (some 2))).queue.length ≤ (2 : Int).toNat ∧
    (poolAtCap.put ⟨7⟩).queue = poolAtCap.queue ∧
    (poolAtCap.put ⟨7⟩).closedConns = poolAtCap.closedConns ++ [⟨8⟩] := by
  refine ⟨(pool_idle_cap none 2).1 _, ?_⟩
  have h := (pool_idle_cap none 2).2 poolAtCap ⟨7⟩ rfl (by decide) (by decide)
  exact ⟨h.1, h.2⟩

/-- C7: when `REQUEST_LIMIT` is configured (a positive value — the
source's truthiness test treats `0` like `None`), every connection
handed out by `get` has `use_count < REQUEST_LIMIT`; a popped idle
connection at or over the limit is closed and replaced by a freshly
synthesized connection with `use_count = 0`. -/
theorem pool_request_limit (L : Nat) (hL : 0 < L) (q : HTTPConnectionQueue) :
    (HTTPConnectionQueue.get (some L) q).1.requestCount < L ∧
    (∀ c rest, q.queue = c :: rest → L ≤ c.requestCount →
      (HTTPConnectionQueue.get (some L) q).1 = connection_object ∧
      (HTTPConnectionQueue.get (some L) q).2.closedConns = q.closedConns ++ [c]) := by
  constructor
  · rcases hq : q.queue with _ | ⟨c, rest⟩
    · simpa [HTTPConnectionQueue.get, hq, connection_object] using hL
    · by_cases hlim : L ≠ 0 ∧ L ≤ c.requestCount
      · simp only [HTTPConnectionQueue.get, hq, if_pos hlim]
        simpa [connection_object] using hL
      · simp only [HTTPConnectionQueue.get, hq, if_neg hlim]
        omega
  · intro c rest hq hover
    simp [HTTPConnectionQueue.get, hq, if_pos (⟨by omega, hover⟩ :
      L ≠ 0 ∧ L ≤ c.requestCount)]

/-- C7 witness: with `REQUEST_LIMIT = 3`, popping an idle connection
with `use_count = 5` hands out a fresh connection (`use_count = 0 < 3`)
and closes the stale one. -/
theorem pool_request_limit_witness :
    (HTTPConnectionQueue.get (some 3) poolStale).1.requestCount < 3 ∧
    (HTTPConnectionQueue.get (some 3) poolStale).1 = connection_object ∧
    (HTTPConnectionQueue.get (some 3) poolStale).2.closedConns =
      poolStale.closedConns ++ [⟨5⟩] := by
  have h := pool_request_limit 3 (by decide) poolStale
  exact ⟨h.1, (h.2 ⟨5⟩ [] rfl (by decide)).1, (h.2 ⟨5⟩ [] rfl (by decide)).2⟩

/-! ### C5: the LRU cache of endpoint pools -/

/-- Helper: popping through `__getitem__` does not change the number of
tracked endpoints. -/
theorem getFromEntries_length (limit : Option Nat) (key : EndpointKey) :
    ∀ (l : List (EndpointKey × HTTPConnectionQueue)) (c : Conn) l2,
      getFromEntries limit key l = some (c, l2) → l2.length = l.length := by
  intro l
  induction l with
  | nil =>
    intro c l2 h
    simp [getFromEntries] at h
  | cons e rest ih =>
    intro c l2 h
    simp only [getFromEntries] at h
    split at h
    · simp only [Option.some.injEq, Prod.mk.injEq] at h
      rw [← h.2]
      simp
    · rcases hrec : getFromEntries limit key rest with _ | ⟨c2, rest2⟩
      · rw [hrec] at h
        cases h
      · rw [hrec] at h
        simp only [Option.some.injEq, Prod.mk.injEq] at h
        rw [← h.2]
        simp [ih c2 rest2 hrec]

/-- Helper: extracting a found entry shortens the list by one. -/
theorem extractKey_length (key : EndpointKey) :
    ∀ (l : List (EndpointKey × HTTPConnectionQueue)) e l2,
      extractKey key l = some (e, l2) → l2.length + 1 = l.length := by
  intro l
  induction l with
  | nil =>
    intro e l2 h
    simp [extractKey] at h
  | cons f rest ih =>
    intro e l2 h
    simp only [extractKey] at h
    split at h
    · simp only [Option.some.injEq, Prod.mk.injEq] at h
      rw [← h.2]
      simp
    · rcases hrec : extractKey key rest with _ | ⟨e2, rest2⟩
      · rw [hrec] at h
        cases h
      · rw [hrec] at h
        simp only [Option.some.injEq, Prod.mk.injEq] at h
        rw [← h.2]
        simp only [List.length_cons]
        rw [ih e2 rest2 hrec]

/-- Helper: the move-to-front step preserves the number of entries. -/
theorem moveToFront_length (key : EndpointKey)
    (l : List (EndpointKey × HTTPConnectionQueue)) :
    (moveToFront key l).length = l.length := by
  rcases l with _ | ⟨h1, t⟩
  · rfl
  · simp only [moveToFront]
    split
    · rfl
    · rcases hex : extractKey key t with _ | ⟨e, t2⟩
      · simp
      · have hl := extractKey_length key t e t2 hex
        simp
        omega

/-- Helper: with a positive bound `m`, the eviction loop keeps the
`m - 1` newest entries and destroys the rest, oldest first. -/
theorem evictLoop_eq (m : Int) (hm : 1 ≤ m) :
    ∀ (entries : List (EndpointKey × HTTPConnectionQueue))
      (destroyed : List EndpointKey),
      evictLoop m entries destroyed =
        some (entries.take (m.toNat - 1),
              destroyed ++ (entries.drop (m.toNat - 1)).reverse.map
                (fun e => e.1)) := by
  intro entries
  induction entries using List.reverseRecOn with
  | nil =>
    intro destroyed
    rw [evictLoop, evictLoopFuel]
    rw [if_neg (by simp; omega)]
    simp
  | append_singleton init last ih =>
    intro destroyed
    rw [evictLoop, evictLoopFuel]
    by_cases hcond : ((init ++ [last]).length : Int) + 1 > m
    · rw [if_pos hcond]
      have hle : m.toNat - 1 ≤ init.length := by simp at hcond; omega
      have hlast : (init ++ [last]).getLast? = some last := by simp
      have hlen : (init ++ [last]).length = init.length + 1 := by simp
      simp only [hlast, hlen, List.dropLast_concat]
      rw [show evictLoopFuel m init.length init (destroyed ++ [last.1])
          = evictLoop m init (destroyed ++ [last.1]) from rfl, ih]
      congr 1
      congr 1
      · rw [List.take_append_eq_append_take,
          show m.toNat - 1 - init.length = 0 from by omega]
        simp
      · rw [List.drop_append_eq_append_drop,
          show m.toNat - 1 - init.length = 0 from by omega]
        simp
    · rw [if_neg hcond]
      have hlen2 : (init.length : Int) + 1 + 1 ≤ m := by
        push_neg at hcond
        simpa using hcond
      rw [List.take_of_length_le (by simp; omega),
        List.drop_eq_nil_of_le (by simp; omega)]
      simp

/-- Helper: with a non-positive bound the eviction loop always runs off
the end of the list (the source would crash on `self.oldest = None`). -/
theorem evictLoop_nonpos (m : Int) (hm : m ≤ 0) :
    ∀ (entries : List (EndpointKey × HTTPConnectionQueue))
      (destroyed : List EndpointKey),
      evictLoop m entries destroyed = none := by
  intro entries
  induction entries using List.reverseRecOn with
  | nil =>
    intro destroyed
    rw [evictLoop, evictLoopFuel]
    rw [if_pos (by simp; omega)]
    simp
  | append_singleton init last ih =>
    intro destroyed
    rw [evictLoop, evictLoopFuel]
    rw [if_pos (by simp; omega)]
    have hlast : (init ++ [last]).getLast? = some last := by simp
    have hlen : (init ++ [last]).length = init.length + 1 := by simp
    simp only [hlast, hlen, List.dropLast_concat]
    exact ih _

/-- Helper: `__getitem__` changes neither the configuration nor the set
of tracked endpoints. -/
theorem getitem_preserves (limit : Option Nat) (s : CQueueLRU) (key : EndpointKey) :
    (CQueueLRU.getitem limit s key).2.maxQueues = s.maxQueues ∧
    (CQueueLRU.getitem limit s key).2.entries.length = s.entries.length := by
  simp only [CQueueLRU.getitem]
  rcases hget : getFromEntries limit key s.entries with _ | ⟨c, l2⟩
  · exact ⟨rfl, rfl⟩
  · exact ⟨rfl, getFromEntries_length limit key s.entries c l2 hget⟩

/-- Helper: a successful `__setitem__` preserves the configuration and
the endpoint-count bound. -/
theorem setitem_bound (s : CQueueLRU) (key : EndpointKey) (c : Conn) (m : Int)
    (hmq : s.maxQueues = some m) (hlen : s.entries.length ≤ m.toNat)
    (s3 : CQueueLRU) (hset : s.setitem key c = some s3) :
    s3.maxQueues = some m ∧ s3.entries.length ≤ m.toNat := by
  simp only [CQueueLRU.setitem] at hset
  split at hset
  · rcases hmv : moveToFront key s.entries with _ | ⟨⟨k, p⟩, rest⟩
    · rw [hmv] at hset
      cases hset
    · rw [hmv] at hset
      simp only [Option.some.injEq] at hset
      rw [← hset]
      have hl := moveToFront_length key s.entries
      rw [hmv] at hl
      simp only [List.length_cons] at hl ⊢
      exact ⟨hmq, by omega⟩
  · simp only [hmq] at hset
    by_cases hm : 1 ≤ m
    · simp only [evictLoop_eq m hm] at hset
      simp only [Option.some.injEq] at hset
      rw [← hset]
      refine ⟨by simp [hmq], ?_⟩
      simp only [List.length_cons, List.length_take]
      omega
    · simp only [evictLoop_nonpos m (by omega)] at hset
      exact Option.noConfusion hset

/-- Helper: the endpoint bound holds along any successful run of LRU
operations. -/
theorem runLRUOps_bound (limit : Option Nat) (m : Int) (ops : List LRUOp) :
    ∀ (s : CQueueLRU), s.maxQueues = some m → s.entries.length ≤ m.toNat →
      ∀ s2, runLRUOps limit ops s = some s2 →
        s2.maxQueues = some m ∧ s2.entries.length ≤ m.toNat := by
  induction ops with
  | nil =>
    intro s hmq hlen s2 h
    cases h
    exact ⟨hmq, hlen⟩
  | cons op ops ih =>
    intro s hmq hlen s2 h
    cases op with
    | acquire k =>
      have hp := getitem_preserves limit s k
      exact ih _ (hp.1.trans hmq) (hp.2.le.trans hlen) s2 h
    | release k c =>
      simp only [runLRUOps] at h
      rcases hset : s.setitem k c with _ | s3
      · rw [hset] at h
        cases h
      · rw [hset] at h
        have hb := setitem_bound s k c m hmq hlen s3 hset
        exact ih s3 hb.1 hb.2 s2 h

/-- C5: the LRU cache keeps at most `max_endpoints` endpoint pools at
every quiescent point of any acquire/release sequence; and a release
with an absent key evicts LRU-tail entries (removing each from the
table, unlinking it, and destroying its pool, oldest kept last) until
inserting the fresh pool for the new key respects the bound. -/
theorem lru_endpoint_cap (limit : Option Nat) (m : Int) :
    (∀ (ops : List LRUOp) (mc : Option Int) (s2 : CQueueLRU),
        runLRUOps limit ops (initLRU (some m) mc) = some s2 →
        s2.entries.length ≤ m.toNat) ∧
    (∀ (s : CQueueLRU) (key : EndpointKey) (c : Conn),
        1 ≤ m → s.maxQueues = some m →
        (s.entries.any (fun e => e.1 == key)) = false →
        s.setitem key c =
          some { s with
            entries := (key, HTTPConnectionQueue.put (initPool s.maxConn) c)
              :: s.entries.take (m.toNat - 1),
            destroyedKeys := s.destroyedKeys ++
              (s.entries.drop (m.toNat - 1)).reverse.map (fun e => e.1) }) := by
  constructor
  · intro ops mc s2 h
    exact (runLRUOps_bound limit m ops (initLRU (some m) mc) rfl
      (by simp [initLRU]) s2 h).2
  · intro s key c hm hmq habs
    simp only [CQueueLRU.setitem, habs, Bool.false_eq_true, if_false, hmq]
    simp only [evictLoop_eq m hm]

/-! ### Dict lemmas (Python dict semantics of `dictInsert`) -/

/-- Replacing the value stored under `k` in place does not change which
keys are present. -/
theorem dictContains_map_replace (d : Dict) (k v k2 : String) :
    dictContains (d.map (fun p => if p.1 == k then (k, v) else p)) k2
      = dictContains d k2 := by
  induction d with
  | nil => rfl
  | cons p rest ih =>
    simp only [List.map_cons, dictContains, List.any_cons] at *
    by_cases hp : (p.1 == k) = true
    · have hpk : p.1 = k := by simpa using hp
      rw [if_pos hp, ih, hpk]
    · rw [if_neg hp, ih]

/-- `dictInsert` adds exactly the key `k` to the present keys. -/
theorem dictContains_insert (d : Dict) (k v k2 : String) :
    dictContains (dictInsert d k v) k2 = (dictContains d k2 || (k == k2)) := by
  simp only [dictInsert]
  split
  · rename_i hc
    rw [dictContains_map_replace]
    by_cases hk : (k == k2) = true
    · have hk2 : k = k2 := by simpa using hk
      subst hk2
      simp [hc]
    · simp [hk]
  · simp [dictContains, List.any_append]

/-- In-place replacement under key `k` does not affect lookups of other
keys. -/
theorem dictLookup_map_replace_other (d : Dict) (k v k2 : String) (hk : ¬ k = k2) :
    dictLookup (d.map (fun p => if p.1 == k then (k, v) else p)) k2
      = dictLookup d k2 := by
  induction d with
  | nil => rfl
  | cons p rest ih =>
    by_cases hp : (p.1 == k) = true
    · have hpk : p.1 = k := by simpa using hp
      have hk2 : (k == k2) = false := by simpa using hk
      have hp2 : (p.1 == k2) = false := by rw [hpk]; exact hk2
      simp only [dictLookup, List.map_cons, if_pos hp, List.find?_cons, hk2, hp2]
      exact ih
    · by_cases hq : (p.1 == k2) = true
      · simp only [dictLookup, List.map_cons, if_neg hp, List.find?_cons, hq]
      · have hq2 : (p.1 == k2) = false := by simpa using hq
        simp only [dictLookup, List.map_cons, if_neg hp, List.find?_cons, hq2]
        exact ih

/-- Replacing in place under a present key makes lookups of that key
yield the new value. -/
theorem dictLookup_map_replace_self (d : Dict) (k v : String)
    (hc : dictContains d k = true) :
    dictLookup (d.map (fun p => if p.1 == k then (k, v) else p)) k = some v := by
  induction d with
  | nil => simp [dictContains] at hc
  | cons p rest ih =>
    by_cases hp : (p.1 == k) = true
    · have hkk : (k == k) = true := by simp
      simp only [dictLookup, List.map_cons, if_pos hp, List.find?_cons, hkk]
      rfl
    · have hp2 : (p.1 == k) = false := by simpa using hp
      have hrest : dictContains rest k = true := by
        simpa [dictContains, hp2] using hc
      simp only [dictLookup, List.map_cons] at ih ⊢
      rw [if_neg hp]
      simp only [List.find?_cons, hp2]
      exact ih hrest

/-- Appending a fresh binding is invisible to lookups of other keys. -/
theorem dictLookup_append_single_other (d : Dict) (k v k2 : String)
    (hk : ¬ k = k2) :
    dictLookup (d ++ [(k, v)]) k2 = dictLookup d k2 := by
  induction d with
  | nil =>
    have hk2 : (k == k2) = false := by simpa using hk
    simp only [dictLookup, List.nil_append, List.find?_cons, hk2, List.find?_nil]
  | cons p rest ih =>
    by_cases hq : (p.1 == k2) = true
    · simp only [dictLookup, List.cons_append, List.find?_cons, hq]
    · have hq2 : (p.1 == k2) = false := by simpa using hq
      simp only [dictLookup, List.cons_append, List.find?_cons, hq2]
      exact ih

/-- Appending a binding for an absent key makes lookups of that key
yield the appended value. -/
theorem dictLookup_append_single_self (d : Dict) (k v : String)
    (hc : dictContains d k = false) :
    dictLookup (d ++ [(k, v)]) k = some v := by
  induction d with
  | nil =>
    have hkk : (k == k) = true := by simp
    simp only [dictLookup, List.nil_append, List.find?_cons, hkk]
    rfl
  | cons p rest ih =>
    simp only [dictContains, List.any_cons, Bool.or_eq_false_iff] at hc
    simp only [dictLookup, List.cons_append, List.find?_cons, hc.1]
    exact ih (by simpa [dictContains] using hc.2)

/-- Looking up the inserted key yields the inserted value. -/
theorem dictLookup_insert_self (d : Dict) (k v : String) :
    dictLookup (dictInsert d k v) k = some v := by
  simp only [dictInsert]
  split
  · rename_i hc
    exact dictLookup_map_replace_self d k v hc
  · rename_i hc
    exact dictLookup_append_single_self d k v (by simpa using hc)

/-- Inserting under `k` is invisible to lookups of other keys. -/
theorem dictLookup_insert_other (d : Dict) (k v k2 : String) (hk : ¬ k = k2) :
    dictLookup (dictInsert d k v) k2 = dictLookup d k2 := by
  simp only [dictInsert]
  split
  · exact dictLookup_map_replace_other d k v k2 hk
  · exact dictLookup_append_single_other d k v k2 hk

/-- One conditional default-assignment step (`if key not in headers:
headers[key] = value`): present keys stay present. -/
theorem dictContains_defaultStep_mono (d : Dict) (k v k2 : String)
    (h : dictContains d k2 = true) :
    dictContains (if dictContains d k then d else dictInsert d k v) k2 = true := by
  split
  · exact h
  · simp [dictContains_insert, h]

/-- One conditional default-assignment step establishes its own key. -/
theorem dictContains_defaultStep_self (d : Dict) (k v : String) :
    dictContains (if dictContains d k then d else dictInsert d k v) k = true := by
  split
  · assumption
  · simp [dictContains_insert]

/-- One conditional default-assignment step for a different key changes
neither presence nor value of `k2`. -/
theorem dict_defaultStep_ne (d : Dict) (k v k2 : String) (hk : ¬ k = k2) :
    dictContains (if dictContains d k then d else dictInsert d k v) k2
      = dictContains d k2 ∧
    dictLookup (if dictContains d k then d else dictInsert d k v) k2
      = dictLookup d k2 := by
  split
  · exact ⟨rfl, rfl⟩
  · exact ⟨by simp [dictContains_insert, hk], dictLookup_insert_other d k v k2 hk⟩

/-! ### C4: outcome invariant of the pipeline -/

/-- Helper: the terminal branch always records a status and a body, and
touches neither `error` nor `response_url`. -/
theorem terminalStep_fields (env : Env) (r : RequestResponse) (resp : NetResponse)
    (k : Nat) :
    (terminalStep env r resp k).error = r.error ∧
    (terminalStep env r resp k).response_status = some resp.status ∧
    (terminalStep env r resp k).response_body.isSome = true ∧
    (terminalStep env r resp k).response_url = r.response_url := by
  simp only [terminalStep]
  split
  · split <;> simp
  · simp

/-- C4: starting from a descriptor with unset outputs, and a
`pre_process` hook that does not write the output fields, every pipeline
outcome satisfies: the pipeline itself never sets `error` (the worker
stamps `res.err` into it), and exactly one of "no exception, with
`response_status` and `response_body` both set" or "an exception, with
`response_status` and `response_body` both unset" holds; on normal
return at least one request was made and `response_url` is the URL
reached after following `requests - 1` redirects from the initial
URL. -/
theorem pipeline_outcome_invariant (env : Env)
    (hpre : ∀ r, (env.preProcess r).error = r.error ∧
      (env.preProcess r).response_status = r.response_status ∧
      (env.preProcess r).response_body = r.response_body ∧
      (env.preProcess r).response_url = r.response_url) :
    ∀ (fuel k : Nat) (rr : RequestResponse),
      rr.error = none → rr.response_status = none → rr.response_body = none →
      ∀ res, request env fuel k rr = some res →
        res.rr.error = none ∧
        ((res.err = none ∧ res.rr.response_status.isSome = true ∧
          res.rr.response_body.isSome = true) ∨
         (res.err.isSome = true ∧ res.rr.response_status = none ∧
          res.rr.response_body = none)) ∧
        (res.err = none → 1 ≤ res.requests ∧
          ∀ u2, rr.response_url = some u2 →
            res.rr.response_url = some (urlAfter env k u2 (res.requests - 1))) := by
  intro fuel
  induction fuel with
  | zero =>
    intro k rr h1 h2 h3 res hres
    cases hres
  | succ fuel ih =>
    intro k rr h1 h2 h3 res hres
    cases hstop : env.stop with
    | true =>
      rw [show request env (fuel + 1) k rr = some ⟨rr, some .stopped, 0, []⟩ from by
        simp [request, hstop]] at hres
      cases hres
      exact ⟨h1, Or.inr ⟨rfl, h2, h3⟩, fun habs => absurd habs (by simp)⟩
    | false =>
      rcases hu : (env.preProcess rr).response_url with _ | u
      · rw [show request env (fuel + 1) k rr =
            some ⟨env.preProcess rr, some .aborted, 0, []⟩ from by
          simp [request, hstop, hu]] at hres
        cases hres
        exact ⟨(hpre rr).1.trans h1,
          Or.inr ⟨rfl, (hpre rr).2.1.trans h2, (hpre rr).2.2.1.trans h3⟩,
          fun habs => absurd habs (by simp)⟩
      · by_cases hcond : (¬ ((env.urlparse u).scheme = "http" ∨
            (env.urlparse u).scheme = "https") ∨ (env.urlparse u).netloc = "")
        · rw [show request env (fuel + 1) k rr =
              some ⟨env.preProcess rr, some .unsupportedScheme, 0, []⟩ from by
            simp only [request, hstop, Bool.false_eq_true, if_false, hu]
            rw [if_pos hcond]] at hres
          cases hres
          exact ⟨(hpre rr).1.trans h1,
            Or.inr ⟨rfl, (hpre rr).2.1.trans h2, (hpre rr).2.2.1.trans h3⟩,
            fun habs => absurd habs (by simp)⟩
        · push_neg at hcond
          rw [request_unfold_dispatch env fuel k rr hstop u hu hcond.1 hcond.2] at hres
          have hne : (normalizeHeaders (env.preProcess rr)
              (env.urlparse u).hostname).1.error = none := by
            rw [normalizeHeaders_error, (hpre rr).1, h1]
          have hns : (normalizeHeaders (env.preProcess rr)
              (env.urlparse u).hostname).1.response_status = none := by
            rw [normalizeHeaders_response_status, (hpre rr).2.1, h2]
          have hnb : (normalizeHeaders (env.preProcess rr)
              (env.urlparse u).hostname).1.response_body = none := by
            rw [normalizeHeaders_response_body, (hpre rr).2.2.1, h3]
          have hnu : (normalizeHeaders (env.preProcess rr)
              (env.urlparse u).hostname).1.response_url = rr.response_url := by
            rw [normalizeHeaders_response_url, (hpre rr).2.2.2]
          rcases hnet : env.net k with _ | resp
          · simp only [hnet] at hres
            cases hres
            exact ⟨hne, Or.inr ⟨rfl, hns, hnb⟩, fun habs => absurd habs (by simp)⟩
          · simp only [hnet] at hres
            by_cases hst : resp.status = 301 ∨ resp.status = 302 ∨ resp.status = 303
            · rw [if_pos hst] at hres
              rcases hred : (normalizeHeaders (env.preProcess rr)
                  (env.urlparse u).hostname).1.redirects with _ | n
              · simp only [hred] at hres
                cases hres
                have ht := terminalStep_fields env (normalizeHeaders (env.preProcess rr)
                  (env.urlparse u).hostname).1 resp k
                refine ⟨ht.1.trans hne, Or.inl ⟨rfl, by rw [ht.2.1]; rfl, ht.2.2.1⟩,
                  fun _ => ⟨Nat.le_refl 1, fun u2 hu2 => ?_⟩⟩
                rw [ht.2.2.2, hnu, hu2]
                rfl
              · simp only [hred] at hres
                by_cases hle : n ≤ 0
                · rw [if_pos hle] at hres
                  cases hres
                  exact ⟨hne, Or.inr ⟨rfl, hns, hnb⟩, fun habs => absurd habs (by simp)⟩
                · rw [if_neg hle] at hres
                  rcases hrec : request env fuel (k + 1)
                      { (normalizeHeaders (env.preProcess rr)
                          (env.urlparse u).hostname).1 with
                        redirects := some (n - 1),
                        response_url := some (env.urljoin u resp.location) }
                      with _ | res2
                  · rw [hrec] at hres
                    cases hres
                  · rw [hrec] at hres
                    cases hres
                    have hih := ih (k + 1) _ (by simpa using hne) (by simpa using hns)
                      (by simpa using hnb) res2 hrec
                    refine ⟨hih.1, ?_, fun he => ?_⟩
                    · rcases hih.2.1 with hok | hbad
                      · exact Or.inl hok
                      · exact Or.inr hbad
                    · have hih2 := hih.2.2 he
                      refine ⟨Nat.succ_le_succ (Nat.zero_le _), fun u2 hu2 => ?_⟩
                      have huu : u = u2 := by
                        rw [(hpre rr).2.2.2, hu2] at hu
                        exact (Option.some.injEq _ _).mp hu.symm
                      subst huu
                      have hurl2 := hih2.2 (env.urljoin u resp.location) (by simp)
                      obtain ⟨j, hj⟩ : ∃ j, res2.requests = j + 1 :=
                        ⟨res2.requests - 1, by omega⟩
                      show res2.rr.response_url
                        = some (urlAfter env k u (res2.requests + 1 - 1))
                      rw [show res2.requests + 1 - 1 = j + 1 from by omega]
                      rw [show urlAfter env k u (j + 1)
                          = urlAfter env (k + 1) (env.urljoin u resp.location) j from by
                        simp [urlAfter, hnet]]
                      rw [hurl2, hj]
                      simp
            · rw [if_neg hst] at hres
              cases hres
              have ht := terminalStep_fields env (normalizeHeaders (env.preProcess rr)
                (env.urlparse u).hostname).1 resp k
              refine ⟨ht.1.trans hne, Or.inl ⟨rfl, by rw [ht.2.1]; rfl, ht.2.2.1⟩,
                fun _ => ⟨Nat.le_refl 1, fun u2 hu2 => ?_⟩⟩
              rw [ht.2.2.2, hnu, hu2]
              rfl

/-- C4 witness: a concrete one-hop 200 run has no error stamped, both
outputs set, and `response_url` equal to the zero-redirect final URL. -/
theorem pipeline_outcome_invariant_witness :
    c4res.rr.error = none ∧
    (c4res.err = none ∧ c4res.rr.response_status.isSome = true ∧
      c4res.rr.response_body.isSome = true) ∧
    c4res.rr.response_url
      = some (urlAfter plainEnv 0 "http://a.test/" (c4res.requests - 1)) := by
  have h := pipeline_outcome_invariant plainEnv (fun r => ⟨rfl, rfl, rfl, rfl⟩)
    1 0 rrPlain rfl rfl rfl c4res (by decide)
  have he : c4res.err = none := by decide
  rcases h.2.1 with hok | hbad
  · exact ⟨h.1, hok, (h.2.2 he).2 "http://a.test/" rfl⟩
  · rw [he] at hbad
    exact absurd hbad.1 (by decide)

/-- C5 witness: releasing three distinct endpoints into a cache bounded
at 2 leaves at most 2 tracked endpoints; and a release with an absent
key into a full cache evicts the LRU tail (`kB`), destroying its pool,
before inserting the new key at the head. -/
theorem lru_endpoint_cap_witness :
    lruAfterW.entries.length ≤ (2 : Int).toNat ∧
    lruAtCap.setitem kC ⟨0⟩ = some { lruAtCap with
      entries := (kC, HTTPConnectionQueue.put (initPool lruAtCap.maxConn) ⟨0⟩)
        :: lruAtCap.entries.take ((2 : Int).toNat - 1),
      destroyedKeys := lruAtCap.destroyedKeys ++
        (lruAtCap.entries.drop ((2 : Int).toNat - 1)).reverse.map (fun e => e.1) } := by
  constructor
  · exact (lru_endpoint_cap none 2).1 lruOpsW (some 4) lruAfterW (by decide)
  · exact (lru_endpoint_cap none 2).2 lruAtCap kC ⟨0⟩ (by decide) rfl (by decide)

/-! ### C8: gzip decoding and the external fallback -/

/-- C8 (with the source's actual tag `'Used zcat'` in place of the
claim's `"used external gunzip"`): for a terminal (non-redirect)
response, when the headers declare `content-encoding: gzip` the body is
decoded in-process; if the in-process decode raises, the body is the
output of the external `zcat` pipe and the tag `'Used zcat'` is appended
to `extra`; without the gzip header the raw bytes are the body and
`extra` is unchanged (in particular stays empty). -/
theorem gzip_decode_fallback (env : Env) (fuel k : Nat) (rr : RequestResponse)
    (hstop : env.stop = false) (u : String)
    (hurl : (env.preProcess rr).response_url = some u)
    (hscheme : (env.urlparse u).scheme = "http" ∨ (env.urlparse u).scheme = "https")
    (hnetloc : (env.urlparse u).netloc ≠ "")
    (resp : NetResponse) (hnet : env.net k = some resp)
    (hterm : ¬ (resp.status = 301 ∨ resp.status = 302 ∨ resp.status = 303)) :
    ∃ res, request env (fuel + 1) k rr = some res ∧ res.err = none ∧
      (dictLookup resp.headers "content-encoding" = some "gzip" →
        (∀ d, env.gzipDecode resp.body = some d →
           res.rr.response_body = some d ∧
           res.rr.extra = (env.preProcess rr).extra) ∧
        (env.gzipDecode resp.body = none →
           res.rr.response_body = some (env.zcat resp.body) ∧
           res.rr.extra = (env.preProcess rr).extra ++ ["Used zcat"])) ∧
      (¬ dictLookup resp.headers "content-encoding" = some "gzip" →
        res.rr.response_body = some resp.body ∧
        res.rr.extra = (env.preProcess rr).extra) := by
  rw [request_unfold_dispatch env fuel k rr hstop u hurl hscheme hnetloc]
  simp only [hnet]
  rw [if_neg hterm]
  refine ⟨_, rfl, rfl, ?_, ?_⟩
  · intro hgz
    constructor
    · intro d hd
      constructor
      · simp [terminalStep, hgz, hd]
      · simp [terminalStep, hgz, hd]
    · intro hd
      constructor
      · simp [terminalStep, hgz, hd]
      · simp [terminalStep, hgz, hd]
  · intro hgz
    constructor
    · simp [terminalStep, hgz]
    · simp [terminalStep, hgz]

/-- C8 counterexample to the claim as stated: on a concrete gzip-tagged
response whose in-process decode fails, the source appends the tag
`'Used zcat'` (line 361 of `crawle.py`), not `"used external gunzip"`. -/
theorem gzip_fallback_tag_counterexample :
    (request gzEnv 1 0 rrPlain).map (fun res => res.rr.extra)
      = some ["Used zcat"] ∧
    ¬ ((request gzEnv 1 0 rrPlain).map (fun res => res.rr.extra)
      = some ["used external gunzip"]) :=
  ⟨by decide, by decide⟩

/-- C8 witness: the concrete fallback run yields `zcat`'s output as the
body with the `'Used zcat'` tag appended. -/
theorem gzip_decode_fallback_witness :
    (request gzEnv 1 0 rrPlain).map
        (fun res => (res.err, res.rr.response_body, res.rr.extra))
      = some (none, some "gztail", ["Used zcat"]) := by
  obtain ⟨res, heq, herr, hgz, hngz⟩ := gzip_decode_fallback gzEnv 0 0 rrPlain rfl
    "http://a.test/" rfl (Or.inl rfl) (by decide)
    ⟨200, [("content-encoding", "gzip")], "", "gzbytes"⟩ rfl (by decide)
  have hbody := (hgz (by decide)).2 rfl
  rw [heq]
  simp [herr, hbody.1, hbody.2, gzEnv, plainEnv, rrPlain]

/-! ### C9: the worker loop -/

/-- C9: a descriptor pulled from the queue produces exactly one
`handler.process` call — with any pipeline exception stamped into
`r.error` first — after which the loop continues with a reset retry
counter; the sentinel and queue-error steps produce no `process` call
(they wait/retry or stop the worker). -/
theorem worker_process_exactly_once
    (pipe : RequestResponse → RequestResponse × Option CrawleError)
    (retrys retryCount : Nat) (rr : RequestResponse) (rest : List WStep)
    (woken : Bool) :
    workerRun pipe retrys (.item rr :: rest) retryCount
      = .processCall (stampError pipe rr) :: workerRun pipe retrys rest 0 ∧
    (∀ e, (pipe rr).2 = some e → (stampError pipe rr).error = some e) ∧
    ((pipe rr).2 = none → stampError pipe rr = (pipe rr).1) ∧
    (woken = true → workerRun pipe retrys (.empty woken :: rest) retryCount
      = workerRun pipe retrys rest retryCount) ∧
    (woken = false → retryCount < retrys →
      workerRun pipe retrys (.empty woken :: rest) retryCount
        = workerRun pipe retrys rest (retryCount + 1)) ∧
    (woken = false → ¬ retryCount < retrys →
      workerRun pipe retrys (.empty woken :: rest) retryCount = []) ∧
    workerRun pipe retrys (.qerror :: rest) retryCount = [] := by
  refine ⟨rfl, ?_, ?_, ?_, ?_, ?_, rfl⟩
  · intro e he
    simp [stampError, he]
  · intro he
    simp [stampError, he]
  · intro hw
    simp [workerRun, hw]
  · intro hw hlt
    simp [workerRun, hw, hlt]
  · intro hw hlt
    simp [workerRun, hw, hlt]

/-- C9 witness: with an always-raising pipeline, an item step emits one
`process` call carrying the stamped transport error; an unwoken empty
wait with retries exhausted stops the worker without a `process` call. -/
theorem worker_process_exactly_once_witness :
    workerRun pipeT 1 [WStep.item rrPlain, WStep.qerror] 0
      = WEvent.processCall (stampError pipeT rrPlain)
          :: workerRun pipeT 1 [WStep.qerror] 0 ∧
    (stampError pipeT rrPlain).error = some CrawleError.transport ∧
    workerRun pipeT 1 [WStep.empty false, WStep.item rrPlain] 1 = [] :=
  ⟨(worker_process_exactly_once pipeT 1 0 rrPlain [WStep.qerror] false).1,
   (worker_process_exactly_once pipeT 1 0 rrPlain [WStep.qerror] false).2.1
     CrawleError.transport rfl,
   (worker_process_exactly_once pipeT 1 1 rrPlain
       [WStep.item rrPlain] false).2.2.2.2.2.1 rfl (by omega)⟩

/-! ### C10 helpers: what the header phase does to `Host` and friends -/

/-- One conditional default-assignment step whose inserted key differs
from `k2` changes neither presence nor value of `k2`. -/
theorem dict_condInsertStep_ne (d : Dict) (kc ki v k2 : String) (hk : ¬ ki = k2) :
    dictContains (if dictContains d kc then d else dictInsert d ki v) k2
      = dictContains d k2 ∧
    dictLookup (if dictContains d kc then d else dictInsert d ki v) k2
      = dictLookup d k2 := by
  split
  · exact ⟨rfl, rfl⟩
  · exact ⟨by simp [dictContains_insert, hk], dictLookup_insert_other d ki v k2 hk⟩

/-- One conditional default-assignment step keeps present keys present. -/
theorem dict_condInsertStep_mono (d : Dict) (kc ki v k2 : String)
    (h : dictContains d k2 = true) :
    dictContains (if dictContains d kc then d else dictInsert d ki v) k2 = true := by
  split
  · exact h
  · simp [dictContains_insert, h]

/-- Keys present before `applyHeaderDefaults` stay present. -/
theorem applyHeaderDefaults_mono (d : Dict) (hn : String) (k2 : String)
    (h : dictContains d k2 = true) :
    dictContains (applyHeaderDefaults d hn) k2 = true := by
  simp only [applyHeaderDefaults]
  apply dict_condInsertStep_mono
  apply dict_condInsertStep_mono
  apply dict_condInsertStep_mono
  apply dict_condInsertStep_mono
  exact dict_condInsertStep_mono _ _ _ _ _ h

/-- `applyHeaderDefaults` and the `Host` entry: a `Host` entry exists
afterwards, an absent one is filled with the request's hostname, and a
present one keeps its caller-supplied value. -/
theorem applyHeaderDefaults_host (d : Dict) (hn : String) :
    dictContains (applyHeaderDefaults d hn) "Host" = true ∧
    (dictContains d "Host" = false →
      dictLookup (applyHeaderDefaults d hn) "Host" = some hn) ∧
    (dictContains d "Host" = true →
      dictLookup (applyHeaderDefaults d hn) "Host" = dictLookup d "Host") := by
  have s1 := dict_condInsertStep_ne d "Accept" "Accept" "*/*" "Host" (by decide)
  set d1 := if dictContains d "Accept" then d
            else dictInsert d "Accept" "*/*" with hdef1
  have s2 := dict_condInsertStep_ne d1 "Accept-Encoding" "Accept-Encoding" "gzip"
    "Host" (by decide)
  set d2 := if dictContains d1 "Accept-Encoding" then d1
            else dictInsert d1 "Accept-Encoding" "gzip" with hdef2
  have s3 := dict_condInsertStep_ne d2 "Accept-Languge" "Accept-Language"
    "en-us,en;q=0.8" "Host" (by decide)
  set d3 := if dictContains d2 "Accept-Languge" then d2
            else dictInsert d2 "Accept-Language" "en-us,en;q=0.8" with hdef3
  set d4 := if dictContains d3 "Host" then d3
            else dictInsert d3 "Host" hn with hdef4
  have s5 := dict_condInsertStep_ne d4 "User-Agent" "User-Agent"
    ("CRAWL-E/" ++ VERSION) "Host" (by decide)
  have hunfold : applyHeaderDefaults d hn
      = if dictContains d4 "User-Agent" then d4
        else dictInsert d4 "User-Agent" ("CRAWL-E/" ++ VERSION) := rfl
  rw [hunfold]
  refine ⟨?_, ?_, ?_⟩
  · rw [s5.1, hdef4]
    exact dictContains_defaultStep_self d3 "Host" hn
  · intro habs
    have h3 : dictContains d3 "Host" = false := by
      rw [hdef3, s3.1, hdef2, s2.1, hdef1, s1.1]
      exact habs
    rw [s5.2, hdef4, if_neg (by simp [h3])]
    exact dictLookup_insert_self d3 "Host" hn
  · intro hpres
    have h3 : dictContains d3 "Host" = true := by
      rw [hdef3, s3.1, hdef2, s2.1, hdef1, s1.1]
      exact hpres
    rw [s5.2, hdef4, if_pos (by simp [h3]), hdef3, s3.2, hdef2, s2.2, hdef1, s1.2]

/-- When the caller's dict lacks the misspelled `'Accept-Languge'` key,
`applyHeaderDefaults` leaves all five default header names present. -/
theorem applyHeaderDefaults_gains (d : Dict) (hn : String)
    (hml : dictContains d "Accept-Languge" = false) :
    dictContains (applyHeaderDefaults d hn) "Accept" = true ∧
    dictContains (applyHeaderDefaults d hn) "Accept-Encoding" = true ∧
    dictContains (applyHeaderDefaults d hn) "Accept-Language" = true ∧
    dictContains (applyHeaderDefaults d hn) "Host" = true ∧
    dictContains (applyHeaderDefaults d hn) "User-Agent" = true := by
  have s1a := dict_condInsertStep_ne d "Accept" "Accept" "*/*" "Accept-Languge"
    (by decide)
  set d1 := if dictContains d "Accept" then d
            else dictInsert d "Accept" "*/*" with hdef1
  have s2a := dict_condInsertStep_ne d1 "Accept-Encoding" "Accept-Encoding" "gzip"
    "Accept-Languge" (by decide)
  set d2 := if dictContains d1 "Accept-Encoding" then d1
            else dictInsert d1 "Accept-Encoding" "gzip" with hdef2
  set d3 := if dictContains d2 "Accept-Languge" then d2
            else dictInsert d2 "Accept-Language" "en-us,en;q=0.8" with hdef3
  set d4 := if dictContains d3 "Host" then d3
            else dictInsert d3 "Host" hn with hdef4
  have hunfold : applyHeaderDefaults d hn
      = if dictContains d4 "User-Agent" then d4
        else dictInsert d4 "User-Agent" ("CRAWL-E/" ++ VERSION) := rfl
  have hml2 : dictContains d2 "Accept-Languge" = false := by
    rw [hdef2, s2a.1, hdef1, s1a.1]
    exact hml
  have hlang : dictContains d3 "Accept-Language" = true := by
    rw [hdef3, if_neg (by simp [hml2])]
    simp [dictContains_insert]
  rw [hunfold]
  refine ⟨?_, ?_, ?_, ?_, ?_⟩
  · apply dict_condInsertStep_mono
    rw [hdef4]
    apply dict_condInsertStep_mono
    rw [hdef3]
    apply dict_condInsertStep_mono
    rw [hdef2]
    apply dict_condInsertStep_mono
    rw [hdef1]
    exact dictContains_defaultStep_self d "Accept" "*/*"
  · apply dict_condInsertStep_mono
    rw [hdef4]
    apply dict_condInsertStep_mono
    rw [hdef3]
    apply dict_condInsertStep_mono
    rw [hdef2]
    exact dictContains_defaultStep_self d1 "Accept-Encoding" "gzip"
  · apply dict_condInsertStep_mono
    rw [hdef4]
    apply dict_condInsertStep_mono
    exact hlang
  · apply dict_condInsertStep_mono
    rw [hdef4]
    exact dictContains_defaultStep_self d3 "Host" hn
  · exact dictContains_defaultStep_self d4 "User-Agent" ("CRAWL-E/" ++ VERSION)

/-- Projections of `normalizeHeaders` for a truthy caller dict: the
mutated dict is written back into the descriptor (aliasing), and the
dispatched dict is the defaulted caller dict, with `Content-Type` added
when `request_params` is truthy. -/
theorem normalizeHeaders_spec (rr : RequestResponse) (hn : String) (hs : Dict)
    (hhs : rr.request_headers = some hs) (hne : hs.isEmpty = false) :
    (normalizeHeaders rr hn).1
      = { rr with request_headers := some (normalizeHeaders rr hn).2 } ∧
    (normalizeHeaders rr hn).2
      = (if (match rr.request_params with
             | some p => (¬ p.isEmpty : Bool)
             | none => false) = true then
           dictInsert (applyHeaderDefaults hs hn)
             "Content-Type" "application/x-www-form-urlencoded"
         else applyHeaderDefaults hs hn) := by
  constructor
  · simp [normalizeHeaders, hhs, hne]
  · simp [normalizeHeaders, hhs]

/-- The terminal branch does not touch the request headers. -/
theorem terminalStep_request_headers (env : Env) (r : RequestResponse)
    (resp : NetResponse) (k : Nat) :
    (terminalStep env r resp k).request_headers = r.request_headers := by
  simp only [terminalStep]
  split
  · split <;> rfl
  · rfl

/-- A dict containing some key is not the empty (falsy) dict. -/
theorem dictContains_ne_nil (d : Dict) (k : String) (h : dictContains d k = true) :
    d.isEmpty = false := by
  cases d
  · simp [dictContains] at h
  · rfl

/-- C10: when the caller supplies a non-empty `request_headers` dict,
the pipeline's header mutations go into that same dict (the source's
`headers` variable aliases it), so after the run the descriptor's
`request_headers` has gained the default header keys (and `Content-Type`
when params are truthy); consequently, in a two-hop redirect chain the
`Host` header computed from the first hop's hostname is dispatched
unchanged on the second hop, even when the redirect targets a different
hostname. -/
theorem caller_headers_aliased_and_host_persists (env : Env) (fuel k : Nat)
    (rr : RequestResponse)
    (hstop : env.stop = false)
    (hpre : ∀ r, env.preProcess r = r)
    (u0 : String) (hurl : rr.response_url = some u0)
    (hsc0 : (env.urlparse u0).scheme = "http")
    (hnl0 : (env.urlparse u0).netloc ≠ "")
    (hs : Dict) (hhs : rr.request_headers = some hs) (hne : hs.isEmpty = false)
    (hnohost : dictContains hs "Host" = false)
    (hml : dictContains hs "Accept-Languge" = false)
    (resp1 : NetResponse) (hnet1 : env.net k = some resp1)
    (hst1 : resp1.status = 302)
    (n : Int) (hn : rr.redirects = some n) (hpos : 0 < n)
    (hsc1 : (env.urlparse (env.urljoin u0 resp1.location)).scheme = "http")
    (hnl1 : (env.urlparse (env.urljoin u0 resp1.location)).netloc ≠ "")
    (resp2 : NetResponse) (hnet2 : env.net (k + 1) = some resp2)
    (hterm2 : ¬ (resp2.status = 301 ∨ resp2.status = 302 ∨ resp2.status = 303)) :
    ∃ res hd1 hd2, request env (fuel + 2) k rr = some res ∧
      res.sent = [hd1, hd2] ∧
      dictLookup hd1 "Host" = some (env.urlparse u0).hostname ∧
      dictLookup hd2 "Host" = some (env.urlparse u0).hostname ∧
      res.rr.request_headers = some hd2 ∧
      dictContains hd2 "Accept" = true ∧
      dictContains hd2 "Accept-Encoding" = true ∧
      dictContains hd2 "Accept-Language" = true ∧
      dictContains hd2 "Host" = true ∧
      dictContains hd2 "User-Agent" = true ∧
      ((match rr.request_params with
        | some p => (¬ p.isEmpty : Bool)
        | none => false) = true → dictContains hd2 "Content-Type" = true) := by
  have hprr : env.preProcess rr = rr := hpre rr
  have hu0 : (env.preProcess rr).response_url = some u0 := by
    rw [hprr]
    exact hurl
  rw [show fuel + 2 = (fuel + 1) + 1 from rfl,
    request_unfold_dispatch env (fuel + 1) k rr hstop u0 hu0 (Or.inl hsc0) hnl0]
  simp only [hprr, hnet1]
  rw [if_pos (Or.inr (Or.inl hst1))]
  have hred1 : (normalizeHeaders rr (env.urlparse u0).hostname).1.redirects
      = some n := by rw [normalizeHeaders_redirects, hn]
  simp only [hred1]
  rw [if_neg (by omega : ¬ n ≤ 0)]
  set h0 := (env.urlparse u0).hostname with hh0
  set H1 := (normalizeHeaders rr h0).2 with hH1def
  have hspec1 := normalizeHeaders_spec rr h0 hs hhs hne
  have hostH1 : dictLookup H1 "Host" = some h0 := by
    rw [hH1def, hspec1.2]
    split
    · rw [dictLookup_insert_other _ _ _ _ (by decide)]
      exact (applyHeaderDefaults_host hs h0).2.1 hnohost
    · exact (applyHeaderDefaults_host hs h0).2.1 hnohost
  have hcontH1 : dictContains H1 "Host" = true := by
    rw [hH1def, hspec1.2]
    split
    · simp [dictContains_insert, (applyHeaderDefaults_host hs h0).1]
    · exact (applyHeaderDefaults_host hs h0).1
  have hkeysH1 : ∀ k2, dictContains (applyHeaderDefaults hs h0) k2 = true →
      dictContains H1 k2 = true := by
    intro k2 hk2
    rw [hH1def, hspec1.2]
    split
    · simp [dictContains_insert, hk2]
    · exact hk2
  have hgains1 := applyHeaderDefaults_gains hs h0 hml
  set rr2 := { (normalizeHeaders rr h0).1 with
    redirects := some (n - 1),
    response_url := some (env.urljoin u0 resp1.location) } with hrr2def
  have hprr2 : env.preProcess rr2 = rr2 := hpre rr2
  have hrr2hdrs : rr2.request_headers = some H1 := by
    rw [hrr2def, hspec1.1]
  have hrr2params : rr2.request_params = rr.request_params := by
    rw [hrr2def, hspec1.1]
  have hu1 : (env.preProcess rr2).response_url
      = some (env.urljoin u0 resp1.location) := by
    rw [hprr2, hrr2def]
  rw [request_unfold_dispatch env fuel (k + 1) rr2 hstop
    (env.urljoin u0 resp1.location) hu1 (Or.inl hsc1) hnl1]
  simp only [hprr2, hnet2]
  rw [if_neg hterm2]
  set h1 := (env.urlparse (env.urljoin u0 resp1.location)).hostname with hh1
  set H2 := (normalizeHeaders rr2 h1).2 with hH2def
  have hspec2 := normalizeHeaders_spec rr2 h1 H1 hrr2hdrs
    (dictContains_ne_nil H1 "Host" hcontH1)
  have hostH2 : dictLookup H2 "Host" = some h0 := by
    rw [hH2def, hspec2.2]
    split
    · rw [dictLookup_insert_other _ _ _ _ (by decide),
        (applyHeaderDefaults_host H1 h1).2.2 hcontH1]
      exact hostH1
    · rw [(applyHeaderDefaults_host H1 h1).2.2 hcontH1]
      exact hostH1
  have hkeysH2 : ∀ k2, dictContains (applyHeaderDefaults H1 h1) k2 = true →
      dictContains H2 k2 = true := by
    intro k2 hk2
    rw [hH2def, hspec2.2]
    split
    · simp [dictContains_insert, hk2]
    · exact hk2
  refine ⟨⟨terminalStep env (normalizeHeaders rr2 h1).1 resp2 (k + 1),
      none, 2, [H1, H2]⟩, H1, H2, rfl, rfl, hostH1, hostH2, ?_, ?_, ?_, ?_, ?_, ?_, ?_⟩
  · rw [terminalStep_request_headers, hspec2.1]
  · exact hkeysH2 "Accept" (applyHeaderDefaults_mono H1 h1 "Accept"
      (hkeysH1 "Accept" hgains1.1))
  · exact hkeysH2 "Accept-Encoding" (applyHeaderDefaults_mono H1 h1 "Accept-Encoding"
      (hkeysH1 "Accept-Encoding" hgains1.2.1))
  · exact hkeysH2 "Accept-Language" (applyHeaderDefaults_mono H1 h1 "Accept-Language"
      (hkeysH1 "Accept-Language" hgains1.2.2.1))
  · exact hkeysH2 "Host" (applyHeaderDefaults_mono H1 h1 "Host" hcontH1)
  · exact hkeysH2 "User-Agent" (applyHeaderDefaults_mono H1 h1 "User-Agent"
      (hkeysH1 "User-Agent" hgains1.2.2.2.2))
  · intro hp
    have hp2 : (match rr2.request_params with
        | some p => (¬ p.isEmpty : Bool)
        | none => false) = true := by
      rw [hrr2params]
      exact hp
    rw [hH2def, hspec2.2, if_pos hp2]
    simp [dictContains_insert]

/-- C10 witness: on the concrete `a.test → b.test` redirect chain with a
caller-supplied dict, both dispatched requests carry `Host: a.test`
(the second hop reuses the first hop's mutated dict), and the descriptor
dict has gained the default header keys. -/
theorem caller_headers_aliased_and_host_persists_witness :
    (request twoHostEnv 2 0 rrHdr).map
        (fun res => res.sent.map (fun hd => dictLookup hd "Host"))
      = some [some "a.test", some "a.test"] ∧
    (request twoHostEnv 2 0 rrHdr).map
        (fun res => (res.rr.request_headers.getD []).map (fun p => p.1))
      = some ["X-Custom", "Accept", "Accept-Encoding", "Accept-Language", "Host",
              "User-Agent"] := by
  obtain ⟨res, hd1, hd2, heq, hsent, hhd1, hhd2, -, -, -, -, -, -, -⟩ :=
    caller_headers_aliased_and_host_persists twoHostEnv 0 0 rrHdr rfl (fun r => rfl)
      "http://a.test/" rfl (by decide) (by decide) [("X-Custom", "1")] rfl rfl
      (by decide) (by decide) ⟨302, [], "http://b.test/x", ""⟩ (by decide) rfl
      5 rfl (by decide) (by decide) (by decide) ⟨200, [], "", "done"⟩ (by decide)
      (by decide)
  constructor
  · rw [heq, show Option.map (fun r2 => r2.sent.map (fun hd => dictLookup hd "Host"))
        (some res) = some (res.sent.map (fun hd => dictLookup hd "Host")) from rfl,
      hsent]
    simp only [List.map_cons, List.map_nil, hhd1, hhd2]
    decide
  · decide

end Crawle
